import Mathlib

/-!
Verification development for the uitaco component-templating engine.

The HTML node tree (crate `htmldom_read`, an external collaborator of the
repository) is modelled as a rose tree `HNode`; the node-tree-adapter
operations consumed by the core (`attribute_by_name`, `children_fetch`,
subtree removal) are modelled on it.  The component engine of
`src/component.rs` (`Class`, `Placeholder`, `InstanceBuilder`,
`ComponentBase`) is translated function by function; Rust panics
(`unwrap`/`unreachable!`) are modelled as `Except.error ()` or `Option.none`
as noted at each definition.  `HashMap`s are modelled as association lists
with overwriting insertion; Rust's arbitrary `HashMap` iteration order is
fixed to the association-list order.
-/

namespace Uitaco

/-- An HTML attribute: a name and its (whitespace-split) list of values,
as stored by `htmldom_read::Attribute`. -/
structure HAttr where
  name : String
  values : List String
deriving Repr, DecidableEq

/-- An HTML node: optional tag name, attributes, children.  Text nodes are
nodes with `tag = none` and no attributes. -/
inductive HNode where
  | node (tag : Option String) (attrs : List HAttr) (children : List HNode)
deriving Repr

def HNode.tag : HNode → Option String
  | .node t _ _ => t

def HNode.attrs : HNode → List HAttr
  | .node _ a _ => a

def HNode.children : HNode → List HNode
  | .node _ _ cs => cs

/-- `Node::attribute_by_name`: first attribute carrying the given name. -/
def attrByName (nm : String) (n : HNode) : Option HAttr :=
  n.attrs.find? (fun a => a.name == nm)

/-- `Attribute::first_value`: the first of the attribute values.  (On a
parsed tree the value list is never empty; `""` is a defensive default.) -/
def HAttr.firstValue (a : HAttr) : String := a.values.headD ""

/-- `Attribute::values_to_string`: the values joined by single spaces. -/
def HAttr.valuesToString (a : HAttr) : String := String.intercalate " " a.values

/-- `COMPONENT_MARK`: the class value marking a component class root. -/
def COMPONENT_MARK : String := "uitacoComponent"

/-- `SKIP_ELEMENT_MARK`: the class value marking a subtree to skip. -/
def SKIP_ELEMENT_MARK : String := "uitacoSkip"

/-- Whether an attribute list carries a `class` attribute one of whose
values is `SKIP_ELEMENT_MARK` (the check inside `has_skips`/`clean`). -/
def skipAttrs (attrs : List HAttr) : Bool :=
  match attrs.find? (fun a => a.name == "class") with
  | some a => a.values.contains SKIP_ELEMENT_MARK
  | none => false

/-- A node marked to be skipped. -/
def isSkip (n : HNode) : Bool := skipAttrs n.attrs

/-- Whether an attribute list carries a `class` attribute one of whose
values is `COMPONENT_MARK` (the marker check of `Class::try_one_from_node`,
and the `value_part(COMPONENT_MARK).key("class")` fetch predicate of
`Class::all_from_html`). -/
def markerAttrs (attrs : List HAttr) : Bool :=
  match attrs.find? (fun a => a.name == "class") with
  | some a => a.values.contains COMPONENT_MARK
  | none => false

/-- A node carrying the component marker. -/
def isMarker (n : HNode) : Bool := markerAttrs n.attrs

/-- A node carrying an `id` attribute (the `key("id")` fetch predicate). -/
def hasId (n : HNode) : Bool := (attrByName "id" n).isSome

/-- First value of a node's `id` attribute, when present. -/
def firstIdValue? (n : HNode) : Option String :=
  (attrByName "id" n).map HAttr.firstValue

/-- First value of a node's `id` attribute, defaulting to `""`. -/
def firstIdValue (n : HNode) : String := (firstIdValue? n).getD ""

mutual
/-- All nodes of a subtree, the root first (pre-order).  Used to state
whole-document hypotheses ("some node in the markup carries ..."). -/
def allNodes : HNode → List HNode
  | .node t a cs => .node t a cs :: allNodesF cs

/-- All nodes of a forest, in pre-order. -/
def allNodesF : List HNode → List HNode
  | [] => []
  | c :: cs => allNodes c ++ allNodesF cs
end

mutual
/-- `Node::children_fetch(...).fetch()` restricted to one node: the node
itself when it satisfies the fetch predicate, then its matching
descendants, in document (pre-)order. -/
def fetchNode (p : HNode → Bool) : HNode → List HNode
  | .node t a cs =>
      (if p (.node t a cs) then [HNode.node t a cs] else []) ++ fetchForest p cs

/-- `children_fetch` over a child list: every node of the forest satisfying
the fetch predicate, in document order. -/
def fetchForest (p : HNode → Bool) : List HNode → List HNode
  | [] => []
  | c :: cs => fetchNode p c ++ fetchForest p cs
end

mutual
/-- The inner check of `has_skips` on one child: the child is skip-marked,
or some node below it is. -/
def hasSkipsNode : HNode → Bool
  | .node _ a cs => skipAttrs a || hasSkips cs

/-- `has_skips(children)` of `Class::try_one_from_node`: whether the child
list holds a node (at any depth) carrying the skip mark. -/
def hasSkips : List HNode → Bool
  | [] => false
  | c :: cs => hasSkipsNode c || hasSkips cs
end

mutual
/-- Cleaning one kept node: its own children list is cleaned in place. -/
def cleanNode : HNode → HNode
  | .node t a cs => .node t a (cleanNodes cs)

/-- `clean(children)` of `Class::try_one_from_node`: remove every
skip-marked child (with its whole subtree), then clean the kept children
recursively.  The Rust code collects the matching indices and removes them
back to front; extensionally that is this filter. -/
def cleanNodes : List HNode → List HNode
  | [] => []
  | c :: cs => if isSkip c then cleanNodes cs else cleanNode c :: cleanNodes cs
end

/-- `NodeAccess::wrap_to_root`: a root node holding the given forest. -/
def mkRoot (cs : List HNode) : HNode := .node none [] cs

/-- `Placeholder`: original identifier and the optionally assigned new one. -/
structure Placeholder where
  initial : String
  new : Option String
deriving Repr, DecidableEq

/-- `Placeholder::new` for a fetched node (the node is known to carry an
`id` attribute): keyed by the id's first value, no new name yet. -/
def Placeholder.ofNode (n : HNode) : Placeholder :=
  { initial := firstIdValue n, new := none }

/-- `Placeholder::set_name`. -/
def Placeholder.setName (p : Placeholder) (nm : String) : Placeholder :=
  { p with new := some nm }

/-- `Placeholder::remove_name`. -/
def Placeholder.removeName (p : Placeholder) : Placeholder :=
  { p with new := none }

/-- Association list standing for a Rust `HashMap` keyed by strings. -/
def lookupA {α : Type} (k : String) : List (String × α) → Option α
  | [] => none
  | e :: t => if e.1 = k then some e.2 else lookupA k t

/-- `HashMap::remove`-style erasure of a key. -/
def eraseA {α : Type} (k : String) (l : List (String × α)) : List (String × α) :=
  l.filter (fun e => e.1 ≠ k)

/-- `HashMap::insert`: overwrite any previous binding of the key. -/
def insertA {α : Type} (k : String) (v : α) (l : List (String × α)) :
    List (String × α) :=
  (k, v) :: eraseA k l

/-- The keys of an association list. -/
def keysA {α : Type} (l : List (String × α)) : List String := l.map Prod.fst

/-- `Class`: name, pruned template tree (the wrapped root), placeholders. -/
structure Class where
  name : String
  html : HNode
  placeholders : List (String × Placeholder)
deriving Repr

/-- The placeholder-discovery loop of `Class::try_one_from_node`
(`children_fetch().key("id")` on the wrapping root, then one
`HashMap::insert` per fetched node, keyed by the id's first value). -/
def placeholderFold (forest : List HNode) : List (String × Placeholder) :=
  (fetchForest hasId forest).foldl
    (fun mp n => insertA (firstIdValue n) (Placeholder.ofNode n) mp) []

/-- `Class::try_one_from_node` on a candidate (non-root) node.
`Except.error ()` models a panic: the `.unwrap()` on
`node.children().iter().next()` fires when the candidate node itself is
skip-marked, because `clean` then removed it from the wrapping root.
`Except.ok none` is the ordinary "not a component" result (marker class or
`id` attribute missing). -/
def tryOneFromNode (m : HNode) : Except Unit (Option Class) :=
  -- wrap_to_root, then remove the nodes which want to be skipped
  let needsSkips := hasSkips [m]
  let forest := if needsSkips then cleanNodes [m] else [m]
  -- node.children().iter().next().unwrap()
  match forest.head? with
  | none => .error ()
  | some m' =>
    -- the node must contain the component mark and a class name
    if markerAttrs m'.attrs then
      match attrByName "id" m' with
      | none => .ok none
      | some ia =>
        let name := ia.firstValue
        -- placeholders for parent and children, then the parent entry
        let phs := insertA name { initial := name, new := none }
          (placeholderFold forest)
        .ok (some { name := name, html := mkRoot forest, placeholders := phs })
    else .ok none

/-- The child-list loop of `Class::try_from_html`: try each top-level node
in order until one yields a class; a panic inside `try_one_from_node`
propagates. -/
def tryFromHtmlNodes : List HNode → Except Unit (Option Class)
  | [] => .ok none
  | c :: cs =>
    match tryOneFromNode c with
    | .error e => .error e
    | .ok (some cl) => .ok (some cl)
    | .ok none => tryFromHtmlNodes cs

/-- `Class::try_from_html`, taking the already-parsed document root (markup
parsing itself is the external node-tree adapter): the first top-level
child that forms a class wins. -/
def tryFromHtml (doc : HNode) : Except Unit (Option Class) :=
  tryFromHtmlNodes doc.children

/-- The per-node loop of `Class::all_from_html`: build a class from every
fetched marker node (`try_one_from_node(node).unwrap()`, so both a panic
inside `try_one_from_node` and its "not a component" result are a panic,
modelled as `Except.error ()`) and insert it keyed by its name — a later
same-named class overwrites an earlier one. -/
def allFromHtmlLoop (acc : List (String × Class)) :
    List HNode → Except Unit (List (String × Class))
  | [] => .ok acc
  | n :: t =>
    match tryOneFromNode n with
    | .error _ => .error ()
    | .ok none => .error ()
    | .ok (some cl) => allFromHtmlLoop (insertA cl.name cl acc) t

/-- `Class::all_from_html`, on the parsed document root: fetch every node
carrying the marker class value (`value_part(COMPONENT_MARK).key("class")`,
in document order) and build the name-keyed class map. -/
def allFromHtml (doc : HNode) : Except Unit (List (String × Class)) :=
  allFromHtmlLoop [] (fetchForest isMarker doc.children)

/-- `TagName` of `src/tags.rs`. -/
inductive TagName where
  | A | Canvas | H4 | H5 | Img | Li | P | Span
  | Unknown (s : String)
deriving Repr, DecidableEq

/-- `str::to_lowercase` as used on (ASCII) tag names, character-wise. -/
def lowerStr (s : String) : String := ⟨s.data.map Char.toLower⟩

/-- `impl From<&str> for TagName` (lower-cased dispatch). -/
def TagName.fromStr (s : String) : TagName :=
  match lowerStr s with
  | "a" => .A
  | "canvas" => .Canvas
  | "h4" => .H4
  | "h5" => .H5
  | "img" => .Img
  | "li" => .Li
  | "p" => .P
  | "span" => .Span
  | _ => .Unknown s

/-- `TagName::try_from_node`: the node must have a tag name. -/
def TagName.tryFromNode (n : HNode) : Option TagName :=
  n.tag.map TagName.fromStr

/-- A bound element handle (`Box<dyn Element>`): the concrete kind chosen
by tag-name dispatch and the element's rendered identifier, as stored by
every concrete element struct of `src/tags.rs`.  (The owning-view handle
carried by the Rust structs is outside the model; note that in the source
the `TagName::H5` arm of `new_impl` builds an `H4` struct, a quirk not
observable through `id()`.) -/
structure BuiltElement where
  tag : TagName
  id : String
deriving Repr, DecidableEq

/-- `TagName::try_impl_from_node`: needs a tag name and an `id` attribute;
the element's identifier is `values_to_string` of the `id` attribute. -/
def tryImplFromNode (n : HNode) : Option BuiltElement := do
  let tn ← TagName.tryFromNode n
  let ia ← attrByName "id" n
  pure { tag := tn, id := ia.valuesToString }

/-- `InstanceBuilder`: the class and an owned copy of its placeholders. -/
structure InstanceBuilder where
  cls : Class
  placeholders : List (String × Placeholder)

/-- `InstanceBuilder::new_for_handle` (and `new_for_class`): copy the
class's placeholder map. -/
def InstanceBuilder.newForClass (c : Class) : InstanceBuilder :=
  { cls := c, placeholders := c.placeholders }

/-- `element_by_id_mut(id)` followed by `Placeholder::set_name(nm)`:
assign a new identifier to the placeholder keyed by original id `id`.
When the id is absent the builder is unchanged (the lookup returns
nothing and there is no placeholder to mutate). -/
def InstanceBuilder.assignName (b : InstanceBuilder) (id nm : String) :
    InstanceBuilder :=
  { b with placeholders :=
      b.placeholders.map fun e => if e.1 = id then (e.1, e.2.setName nm) else e }

/-- `element_by_id_mut(id)` followed by `Placeholder::remove_name()`. -/
def InstanceBuilder.clearName (b : InstanceBuilder) (id : String) :
    InstanceBuilder :=
  { b with placeholders :=
      b.placeholders.map fun e => if e.1 = id then (e.1, e.2.removeName) else e }

/-- `overwrite_attribute` with `Attribute::from_name_and_values(nm, vals)`:
replace the first attribute of that name, or append one. -/
def overwriteAttr (nm : String) (vals : List String) : List HAttr → List HAttr
  | [] => [{ name := nm, values := vals }]
  | a :: t =>
    if a.name = nm then { name := nm, values := vals } :: t
    else a :: overwriteAttr nm vals t

/-- The fetch predicate of `InstanceBuilder::build`:
`children_fetch_mut().key("id").value(target)` — an `id` attribute whose
(exact, single-token) value is `target`. -/
def idValueIs (target : String) (n : HNode) : Bool :=
  match attrByName "id" n with
  | some a => a.values == [target]
  | none => false

mutual
/-- Overwrite, in one subtree, the `id` attribute of the first node (in
document order) whose `id` value is `target` with `[newId]`; return the
rewritten subtree and the rewritten node, or `none` when no node matches. -/
def overwriteFirstIdN (target newId : String) : HNode → Option (HNode × HNode)
  | .node t a cs =>
    if idValueIs target (.node t a cs) then
      let a' := overwriteAttr "id" [newId] a
      some (.node t a' cs, .node t a' cs)
    else
      match overwriteFirstIdF target newId cs with
      | some (cs', n) => some (.node t a cs', n)
      | none => none

/-- The forest version of `overwriteFirstIdN` (used on the children of the
copied template root, matching `html.children_fetch_mut()` followed by
`.iter_mut().next()`). -/
def overwriteFirstIdF (target newId : String) :
    List HNode → Option (List HNode × HNode)
  | [] => none
  | c :: cs =>
    match overwriteFirstIdN target newId c with
    | some (c', n) => some (c' :: cs, n)
    | none =>
      match overwriteFirstIdF target newId cs with
      | some (cs', n) => some (c :: cs', n)
      | none => none
end

/-- `ComponentBase`: generated tree, element bindings keyed by original
identifier, nested component handles (by id).  The `interface` field (the
owning view) is outside the model. -/
structure ComponentBase where
  cls : Class
  html : HNode
  elements : List (String × BuiltElement)
  components : List Nat

/-- One iteration of the placeholder loop of `InstanceBuilder::build`:
locate the first node whose `id` equals the placeholder's original value,
overwrite its `id` with the assigned name (or `""` when none was
assigned), build the element binding, and store it keyed by the original
identifier.  `none` models the two `.unwrap()` panics: no node matches
(template/placeholder desynchronisation) or element construction fails. -/
def buildStep (st : HNode × List (String × BuiltElement))
    (pr : String × Placeholder) : Option (HNode × List (String × BuiltElement)) := do
  let newId := pr.2.new.getD ""
  let (html', phNode) ← overwriteFirstIdN pr.1 newId st.1
  let elem ← tryImplFromNode phNode
  pure (html', insertA pr.1 elem st.2)

/-- `InstanceBuilder::build`: deep-copy the template, rewrite every
placeholder node's identifier, bind elements; `none` models the build-time
panics (fatal invariant violations).  The Rust `HashMap` iteration order
over placeholders is fixed to the association-list order. -/
def InstanceBuilder.build (b : InstanceBuilder) : Option ComponentBase := do
  let res ← b.placeholders.foldlM buildStep (b.cls.html, [])
  pure { cls := b.cls, html := res.1, elements := res.2, components := [] }

/-- `ComponentBase::name` (`Component::name`): the `id` attribute's first
value on the first node of the generated tree ("unwrap root node").  The
source unwraps; `none` models the panic when the tree has no first node or
it has no `id` attribute. -/
def ComponentBase.nameM (cb : ComponentBase) : Option String := do
  let c0 ← cb.html.children.head?
  let a ← attrByName "id" c0
  a.values.head?

/-- `ChildrenLogicAddError` of `src/component.rs` (the variants carry the
rejected element in the source). -/
inductive ChildrenLogicAddError where
  | UnexpectedChild (child : BuiltElement)
  | Overflow (child : BuiltElement)
  | AlreadyPresent
deriving Repr, DecidableEq

/-- `ComponentBase::add_child`: reject an element whose current identifier
is already a key of `elements`, otherwise insert it keyed by it. -/
def ComponentBase.addChild (cb : ComponentBase) (child : BuiltElement) :
    ComponentBase × Except ChildrenLogicAddError Unit :=
  if (lookupA child.id cb.elements).isSome then
    (cb, .error .AlreadyPresent)
  else
    ({ cb with elements := insertA child.id child cb.elements }, .ok ())

/-- `ComponentBase::remove_child`: remove and return the element keyed by
the given current identifier. -/
def ComponentBase.removeChild (cb : ComponentBase) (child : String) :
    ComponentBase × Option BuiltElement :=
  ({ cb with elements := eraseA child cb.elements }, lookupA child cb.elements)

/-- `ComponentBase::contains_child`. -/
def ComponentBase.containsChild (cb : ComponentBase) (child : String) : Bool :=
  (lookupA child cb.elements).isSome

/-- A child-logic operation on a built component (claim C4's "sequence of
add_child and remove_child operations"). -/
inductive ChildOp where
  | add (child : BuiltElement)
  | remove (id : String)
deriving Repr, DecidableEq

/-- Run a sequence of child-logic operations, keeping only the component
state (the per-operation results are discarded). -/
def runChildOps (cb : ComponentBase) : List ChildOp → ComponentBase
  | [] => cb
  | .add c :: ops => runChildOps (cb.addChild c).1 ops
  | .remove i :: ops => runChildOps (cb.removeChild i).1 ops

/-- The identifiers added by the `add_child` operations of a sequence. -/
def addedChildIds : List ChildOp → List String
  | [] => []
  | .add c :: ops => c.id :: addedChildIds ops
  | .remove _ :: ops => addedChildIds ops

/-- `js_prefix_quotes` of `src/lib.rs`, on the character list: put a
backslash in front of every single- or double-quote character. -/
def jsPrefixQuotesL : List Char → List Char
  | [] => []
  | c :: cs =>
    if c = '\'' || c = '"' then '\\' :: c :: jsPrefixQuotesL cs
    else c :: jsPrefixQuotesL cs

/-- `js_prefix_quotes` on strings. -/
def js_prefix_quotes (s : String) : String := ⟨jsPrefixQuotesL s.data⟩

/-- Whether a character is one of the two quote characters escaped by
`js_prefix_quotes`. -/
def isQuoteChar (c : Char) : Bool := c = '\'' || c = '"'

/-- Specification-side check (from §6 of the spec): every quote character
of the text is directly preceded by a backslash; `prev` is the character
before the current position. -/
def quotesPrefixedFrom (prev : Option Char) : List Char → Bool
  | [] => true
  | c :: cs =>
    (!isQuoteChar c || prev == some '\\') && quotesPrefixedFrom (some c) cs

/-- Every quote of the string is directly preceded by a backslash. -/
def quotesPrefixed (s : String) : Bool := quotesPrefixedFrom none s.data

/-- The script command emitted by `Element::set_attribute` of
`src/tags.rs`: the value payload is passed through `js_prefix_quotes`
before interpolation. -/
def setAttributeJs (id nm value : String) : String :=
  "document.getElementById('" ++ id ++ "').setAttribute('" ++ nm ++ "', '"
    ++ js_prefix_quotes value ++ "');"

/-- The script command emitted by `Element::append_inner_html`: the markup
payload is passed through `js_prefix_quotes`. -/
def appendInnerHtmlJs (id html : String) : String :=
  "document.getElementById('" ++ id ++ "').innerHTML += '"
    ++ js_prefix_quotes html ++ "';"

/-- The script command emitted by `RootComponent::add_component` of
`src/lib.rs` (lines 566-569): the nested component's serialised markup is
interpolated RAW — `js_prefix_quotes` is not applied to it. -/
def rootAddComponentJs (name html : String) : String :=
  "var i = document.getElementById('" ++ name ++ "');\n            i.innerHTML += '"
    ++ html ++ "';\n        "

/-- `ResponseValue` of `src/lib.rs`. -/
inductive ResponseValue where
  | Bool (b : Bool)
  | Str (s : String)
deriving Repr, DecidableEq

/-- The reply observed by a caller blocked on a request's one-shot channel:
either a value, or `none` when the channel is closed because every sender
was dropped (the abandoned-request case). -/
def ReplyOutcome : Type := Option ResponseValue

/-- `Element::attribute` of `src/tags.rs`, as a function of the reply
outcome (the emitted script text and the request plumbing are handled by
`RequestBuilder`): `receiver.recv().unwrap()` panics (`Except.error ()`)
when the channel is closed, a string reply maps `""` to `none`, and a
boolean reply hits `unreachable!()`. -/
def attributeOfReply (reply : Option ResponseValue) :
    Except Unit (Option String) :=
  match reply with
  | none => .error ()
  | some (.Str s) => .ok (if s = "" then none else some s)
  | some (.Bool _) => .error ()

/-- `Element::dom_html` of `src/tags.rs`, as a function of the reply
outcome: a failed `recv` returns `none` (no panic), a string reply maps
`""` to `none`, and a boolean reply hits `unreachable!()`. -/
def domHtmlOfReply (reply : Option ResponseValue) :
    Except Unit (Option String) :=
  match reply with
  | none => .ok none
  | some (.Str s) => .ok (if s.isEmpty then none else some s)
  | some (.Bool _) => .error ()

/-- `View::remove_callback` of `src/lib.rs` on the callback registry
(callbacks are identified by their numeric ids): `.unwrap()` panics when
the id is not registered. -/
def removeCallbackM (callbacks : List Nat) (id : Nat) :
    Except Unit (List Nat) :=
  if callbacks.contains id then .ok (callbacks.filter (fun c => c ≠ id))
  else .error ()

/-- The request-correlation state of a `View`: the `requests` map from
request id to the stored reply sender.  A sender is identified by a
numeric token; the sender of a request's channel lives in this map and
nowhere else once `RequestBuilder::eval` has run, so a request's channel
is closed exactly when its sender token is no longer in the map. -/
structure ViewRequests where
  requests : List (Nat × Nat)
deriving Repr, DecidableEq

/-- Numeric-key association-list lookup. -/
def lookupN {α : Type} (k : Nat) : List (Nat × α) → Option α
  | [] => none
  | e :: t => if e.1 = k then some e.2 else lookupN k t

/-- `View::remove_request`: drop the entry for the id, returning it. -/
def View.removeRequest (v : ViewRequests) (id : Nat) : ViewRequests :=
  { requests := v.requests.filter (fun e => e.1 ≠ id) }

/-- `RequestBuilder::eval` of `src/lib.rs`: store the sender under the
request id, run the script synchronously (`evalFails` is whether
`eval_wait` returned an error), and on failure remove the entry again so
the sender is dropped and the receiver's channel closes. -/
def RequestBuilder.eval (v : ViewRequests) (id tx : Nat) (evalFails : Bool) :
    ViewRequests :=
  let v1 : ViewRequests := { requests := (id, tx) :: v.requests.filter (fun e => e.1 ≠ id) }
  if evalFails then View.removeRequest v1 id else v1

/-- Whether the sender token `tx` is still held by some request entry: the
receiver of `tx`'s channel blocks while this holds and fails (channel
closed) once it does not. -/
def senderAlive (v : ViewRequests) (tx : Nat) : Bool :=
  v.requests.any (fun e => e.2 == tx)

/-- The component-registry state of a `View` (`src/lib.rs`): the
monotonically increasing id counter and the registered component ids (the
map's boxed components are irrelevant to the registry claims). -/
structure ViewComponents where
  next_component_id : Nat
  components : List Nat
deriving Repr, DecidableEq

/-- `View::add_component`: take the current counter value as the new id,
bump the counter, register the id, return it (as the handle's id). -/
def View.addComponent (v : ViewComponents) : ViewComponents × Nat :=
  ({ next_component_id := v.next_component_id + 1,
     components := v.components ++ [v.next_component_id] }, v.next_component_id)

/-- `View::remove_component`: drop the handle's id from the registry;
`none` when it was not registered. -/
def View.removeComponent (v : ViewComponents) (id : Nat) :
    ViewComponents × Option Unit :=
  (⟨v.next_component_id, v.components.filter (fun c => c ≠ id)⟩,
   if v.components.contains id then some () else none)

/-- A registry operation (claim C10's sequences). -/
inductive ViewOp where
  | add
  | remove (id : Nat)
deriving Repr, DecidableEq

/-- Run a sequence of registry operations. -/
def runViewOps (v : ViewComponents) : List ViewOp → ViewComponents
  | [] => v
  | .add :: ops => runViewOps (View.addComponent v).1 ops
  | .remove i :: ops => runViewOps (View.removeComponent v i).1 ops

/-- The ids handed out by the `add_component` calls of a sequence, in call
order. -/
def assignedIds (v : ViewComponents) : List ViewOp → List Nat
  | [] => []
  | .add :: ops => (View.addComponent v).2 :: assignedIds (View.addComponent v).1 ops
  | .remove i :: ops => assignedIds (View.removeComponent v i).1 ops

/-- `PartialEq for ComponentHandle` (and its `Hash`): equality solely by
the numeric id. -/
def handleEq (id₁ id₂ : Nat) : Bool := id₁ == id₂

/-- The registry invariant: every registered id was handed out before the
counter reached its current value, and no id is registered twice.  It
holds for the freshly created view (counter 0, no components) and is
preserved by both operations. -/
def ViewInv (v : ViewComponents) : Prop :=
  (∀ i ∈ v.components, i < v.next_component_id) ∧ v.components.Nodup

instance (v : ViewComponents) : Decidable (ViewInv v) := by
  unfold ViewInv; infer_instance

section AssocLemmas

variable {α : Type}

theorem lookupA_eq_none_of_keys {k : String} :
    ∀ l : List (String × α), (∀ e ∈ l, e.1 ≠ k) → lookupA k l = none := by
  intro l
  induction l with
  | nil => intro _; rfl
  | cons e t ih =>
    intro h
    have he : e.1 ≠ k := h e (List.mem_cons_self e t)
    simp only [lookupA, if_neg he]
    exact ih fun x hx => h x (List.mem_cons_of_mem e hx)

theorem lookupA_isSome_iff_mem_keys {k : String} :
    ∀ l : List (String × α), (lookupA k l).isSome = true ↔ k ∈ keysA l := by
  intro l
  induction l with
  | nil => simp [lookupA, keysA]
  | cons e t ih =>
    by_cases h : e.1 = k
    · subst h; simp [lookupA, keysA]
    · simp only [lookupA, if_neg h, keysA, List.map_cons, List.mem_cons]
      rw [keysA] at ih
      rw [ih]
      constructor
      · exact Or.inr
      · rintro (rfl | hm)
        · exact absurd rfl h
        · exact hm

theorem mem_eraseA {k : String} {e : String × α} :
    ∀ l : List (String × α), e ∈ eraseA k l → e ∈ l ∧ e.1 ≠ k := by
  intro l h
  unfold eraseA at h
  have := List.mem_filter.mp h
  exact ⟨this.1, by simpa using this.2⟩

theorem mem_insertA {k : String} {v : α} {e : String × α}
    {l : List (String × α)} (h : e ∈ insertA k v l) : e = (k, v) ∨ e ∈ l := by
  rcases List.mem_cons.mp h with h' | h'
  · exact Or.inl h'
  · exact Or.inr (mem_eraseA l h').1

theorem keys_insertA {k k' : String} {v : α} :
    ∀ l : List (String × α),
      (k' ∈ keysA (insertA k v l)) ↔ (k' = k ∨ k' ∈ keysA l) := by
  intro l
  constructor
  · intro h
    rcases List.mem_map.mp h with ⟨e, he, rfl⟩
    rcases mem_insertA he with rfl | he'
    · exact Or.inl rfl
    · exact Or.inr (List.mem_map.mpr ⟨e, he', rfl⟩)
  · rintro (rfl | h)
    · exact List.mem_map.mpr ⟨(k', v), List.mem_cons_self _ _, rfl⟩
    · by_cases hk : k' = k
      · exact List.mem_map.mpr ⟨(k, v), List.mem_cons_self _ _, hk.symm⟩
      · rcases List.mem_map.mp h with ⟨e, he, rfl⟩
        refine List.mem_map.mpr ⟨e, List.mem_cons_of_mem _ ?_, rfl⟩
        exact List.mem_filter.mpr ⟨he, by simpa using hk⟩

theorem lookupA_insertA_self {k : String} {v : α} (l : List (String × α)) :
    lookupA k (insertA k v l) = some v := by
  simp [insertA, lookupA]

theorem lookupA_eraseA_ne {k k' : String} (h : k' ≠ k) :
    ∀ l : List (String × α), lookupA k' (eraseA k l) = lookupA k' l := by
  intro l
  induction l with
  | nil => rfl
  | cons e t ih =>
    by_cases hek : e.1 = k
    · rw [eraseA, List.filter_cons_of_neg (by simpa using hek)]
      rw [show eraseA k t = List.filter (fun e => decide (e.1 ≠ k)) t from rfl] at ih
      rw [ih]
      have : e.1 ≠ k' := fun hh => h ((hh ▸ hek : k' = k))
      simp [lookupA, this]
    · rw [eraseA, List.filter_cons_of_pos (by simpa using hek)]
      by_cases hek' : e.1 = k'
      · simp [lookupA, hek']
      · simp only [lookupA, if_neg hek']
        exact ih

theorem lookupA_insertA_ne {k k' : String} {v : α} (h : k' ≠ k)
    (l : List (String × α)) : lookupA k' (insertA k v l) = lookupA k' l := by
  have hkk : k ≠ k' := fun hh => h hh.symm
  rw [insertA, lookupA, if_neg hkk]
  exact lookupA_eraseA_ne h l

theorem keysA_nodup_insertA {k : String} {v : α} {l : List (String × α)}
    (h : (keysA l).Nodup) : (keysA (insertA k v l)).Nodup := by
  rw [insertA, keysA, List.map_cons]
  refine List.Nodup.cons ?_ ?_
  · intro hk
    rcases List.mem_map.mp hk with ⟨e, he, hke⟩
    exact absurd hke (mem_eraseA l he).2
  · rw [keysA] at h
    rw [eraseA]
    exact h.sublist ((List.filter_sublist l).map Prod.fst)

end AssocLemmas

section TreeLemmas

theorem allNodes_eq (t : Option String) (a : List HAttr) (cs : List HNode) :
    allNodes (.node t a cs) = .node t a cs :: allNodesF cs := by
  rw [allNodes]

theorem mem_allNodes_self (n : HNode) : n ∈ allNodes n := by
  cases n with
  | node t a cs => rw [allNodes_eq]; exact List.mem_cons_self _ _

theorem allNodesF_append (l₁ l₂ : List HNode) :
    allNodesF (l₁ ++ l₂) = allNodesF l₁ ++ allNodesF l₂ := by
  induction l₁ with
  | nil => simp [allNodesF]
  | cons c cs ih => simp [allNodesF, ih]

theorem mem_allNodesF_of_mem {c : HNode} {cs : List HNode} (h : c ∈ cs) :
    ∀ x ∈ allNodes c, x ∈ allNodesF cs := by
  induction cs with
  | nil => cases h
  | cons d ds ih =>
    intro x hx
    rw [allNodesF, List.mem_append]
    rcases List.mem_cons.mp h with rfl | h'
    · exact Or.inl hx
    · exact Or.inr (ih h' x hx)

theorem allNodes_trans :
    (∀ n : HNode, ∀ x ∈ allNodes n, ∀ y ∈ allNodes x, y ∈ allNodes n) ∧
    (∀ cs : List HNode, ∀ x ∈ allNodesF cs, ∀ y ∈ allNodes x, y ∈ allNodesF cs) := by
  refine allNodes.mutual_induct
    (fun n => ∀ x ∈ allNodes n, ∀ y ∈ allNodes x, y ∈ allNodes n)
    (fun cs => ∀ x ∈ allNodesF cs, ∀ y ∈ allNodes x, y ∈ allNodesF cs)
    ?_ ?_ ?_
  · intro t a cs ih x hx y hy
    rw [allNodes_eq] at hx ⊢
    rcases List.mem_cons.mp hx with rfl | hx'
    · rw [allNodes_eq] at hy; exact hy
    · exact List.mem_cons_of_mem _ (ih x hx' y hy)
  · intro x hx; cases hx
  · intro c cs ihc ihcs x hx y hy
    rw [allNodesF, List.mem_append] at hx ⊢
    rcases hx with hx' | hx'
    · exact Or.inl (ihc x hx' y hy)
    · exact Or.inr (ihcs x hx' y hy)

theorem mem_fetch (p : HNode → Bool) :
    (∀ n : HNode, ∀ x, x ∈ fetchNode p n ↔ x ∈ allNodes n ∧ p x = true) ∧
    (∀ cs : List HNode, ∀ x, x ∈ fetchForest p cs ↔ x ∈ allNodesF cs ∧ p x = true) := by
  refine allNodes.mutual_induct
    (fun n => ∀ x, x ∈ fetchNode p n ↔ x ∈ allNodes n ∧ p x = true)
    (fun cs => ∀ x, x ∈ fetchForest p cs ↔ x ∈ allNodesF cs ∧ p x = true)
    ?_ ?_ ?_
  · intro t a cs ih x
    rw [fetchNode, allNodes_eq]
    by_cases hp : p (.node t a cs)
    · simp only [if_pos hp, List.cons_append, List.nil_append, List.mem_cons,
        List.mem_cons, ih x]
      constructor
      · rintro (rfl | ⟨h1, h2⟩)
        · exact ⟨Or.inl rfl, hp⟩
        · exact ⟨Or.inr h1, h2⟩
      · rintro ⟨rfl | h1, h2⟩
        · exact Or.inl rfl
        · exact Or.inr ⟨h1, h2⟩
    · simp only [if_neg hp, List.nil_append, List.mem_cons, ih x]
      constructor
      · rintro ⟨h1, h2⟩; exact ⟨Or.inr h1, h2⟩
      · rintro ⟨rfl | h1, h2⟩
        · exact absurd h2 hp
        · exact ⟨h1, h2⟩
  · intro x; simp [fetchForest, allNodesF]
  · intro c cs ihc ihcs x
    rw [fetchForest, allNodesF]
    simp only [List.mem_append, ihc x, ihcs x]
    constructor
    · rintro (⟨h1, h2⟩ | ⟨h1, h2⟩)
      · exact ⟨Or.inl h1, h2⟩
      · exact ⟨Or.inr h1, h2⟩
    · rintro ⟨h1 | h1, h2⟩
      · exact Or.inl ⟨h1, h2⟩
      · exact Or.inr ⟨h1, h2⟩

theorem hasSkips_false_iff :
    (∀ n : HNode, hasSkipsNode n = false ↔ ∀ x ∈ allNodes n, isSkip x = false) ∧
    (∀ cs : List HNode, hasSkips cs = false ↔ ∀ x ∈ allNodesF cs, isSkip x = false) := by
  refine allNodes.mutual_induct
    (fun n => hasSkipsNode n = false ↔ ∀ x ∈ allNodes n, isSkip x = false)
    (fun cs => hasSkips cs = false ↔ ∀ x ∈ allNodesF cs, isSkip x = false)
    ?_ ?_ ?_
  · intro t a cs ih
    rw [hasSkipsNode, allNodes_eq, Bool.or_eq_false_iff, ih]
    constructor
    · rintro ⟨h1, h2⟩ x hx
      rcases List.mem_cons.mp hx with rfl | hx'
      · exact h1
      · exact h2 x hx'
    · intro h
      exact ⟨h _ (List.mem_cons_self _ _), fun x hx => h x (List.mem_cons_of_mem _ hx)⟩
  · simp [hasSkips, allNodesF]
  · intro c cs ihc ihcs
    rw [hasSkips, Bool.or_eq_false_iff, ihc, ihcs, allNodesF]
    constructor
    · rintro ⟨h1, h2⟩ x hx
      rcases List.mem_append.mp hx with hx' | hx'
      · exact h1 x hx'
      · exact h2 x hx'
    · intro h
      exact ⟨fun x hx => h x (List.mem_append.mpr (Or.inl hx)),
             fun x hx => h x (List.mem_append.mpr (Or.inr hx))⟩

theorem cleanNode_attrs (n : HNode) : (cleanNode n).attrs = n.attrs := by
  cases n with
  | node t a cs => rw [cleanNode]; rfl

theorem cleanNode_tag (n : HNode) : (cleanNode n).tag = n.tag := by
  cases n with
  | node t a cs => rw [cleanNode]; rfl

theorem firstIdValue?_congr {n n' : HNode} (h : n.attrs = n'.attrs) :
    firstIdValue? n = firstIdValue? n' := by
  unfold firstIdValue? attrByName
  rw [h]

theorem isSkip_congr {n n' : HNode} (h : n.attrs = n'.attrs) :
    isSkip n = isSkip n' := by
  unfold isSkip; rw [h]

/-- Skip-pruning removes every identifier that only skip-marked nodes
carry: if every node (of the forest) whose `id` first value is `d` is
skip-marked, then no node of the cleaned forest has `id` first value `d`. -/
theorem clean_no_skip_ids (d : String) :
    (∀ n : HNode,
      (∀ x ∈ allNodes n, firstIdValue? x = some d → isSkip x = true) →
      isSkip n = false →
      ∀ m ∈ allNodes (cleanNode n), firstIdValue? m ≠ some d) ∧
    (∀ cs : List HNode,
      (∀ x ∈ allNodesF cs, firstIdValue? x = some d → isSkip x = true) →
      ∀ m ∈ allNodesF (cleanNodes cs), firstIdValue? m ≠ some d) := by
  refine allNodes.mutual_induct
    (fun n => (∀ x ∈ allNodes n, firstIdValue? x = some d → isSkip x = true) →
      isSkip n = false → ∀ m ∈ allNodes (cleanNode n), firstIdValue? m ≠ some d)
    (fun cs => (∀ x ∈ allNodesF cs, firstIdValue? x = some d → isSkip x = true) →
      ∀ m ∈ allNodesF (cleanNodes cs), firstIdValue? m ≠ some d)
    ?_ ?_ ?_
  · intro t a cs ih h hns m hm
    rw [cleanNode, allNodes_eq] at hm
    rcases List.mem_cons.mp hm with rfl | hm'
    · intro hd
      have hd' : firstIdValue? (HNode.node t a cs) = some d := hd
      have := h _ (mem_allNodes_self _) hd'
      rw [this] at hns; cases hns
    · exact ih (fun x hx => h x (by rw [allNodes_eq]; exact List.mem_cons_of_mem _ hx))
        m hm'
  · intro h m hm; rw [cleanNodes] at hm; cases hm
  · intro c cs ihc ihcs h m hm
    rw [cleanNodes] at hm
    have hc : ∀ x ∈ allNodes c, firstIdValue? x = some d → isSkip x = true :=
      fun x hx => h x (by rw [allNodesF]; exact List.mem_append.mpr (Or.inl hx))
    have hcs : ∀ x ∈ allNodesF cs, firstIdValue? x = some d → isSkip x = true :=
      fun x hx => h x (by rw [allNodesF]; exact List.mem_append.mpr (Or.inr hx))
    by_cases hsk : isSkip c
    · rw [if_pos hsk] at hm
      exact ihcs hcs m hm
    · rw [if_neg hsk] at hm
      rw [allNodesF] at hm
      rcases List.mem_append.mp hm with hm' | hm'
      · exact ihc hc (by simpa using hsk) m hm'
      · exact ihcs hcs m hm'

end TreeLemmas

section TryOneLemmas

/-- The node that survives as the class root: the candidate itself, or its
clean-pruned copy when the subtree held skip marks. -/
def effNode (n : HNode) : HNode := if hasSkips [n] then cleanNode n else n

theorem effNode_attrs (n : HNode) : (effNode n).attrs = n.attrs := by
  unfold effNode
  by_cases h : hasSkips [n]
  · rw [if_pos h, cleanNode_attrs]
  · rw [if_neg h]

theorem attrByName_congr {n n' : HNode} (k : String) (h : n.attrs = n'.attrs) :
    attrByName k n = attrByName k n' := by
  unfold attrByName; rw [h]

theorem hasSkips_singleton_of_isSkip {n : HNode} (h : isSkip n = true) :
    hasSkips [n] = true := by
  cases n with
  | node t a cs =>
    rw [hasSkips, hasSkipsNode]
    rw [show isSkip (HNode.node t a cs) = skipAttrs a from rfl] at h
    rw [h]; rfl

theorem cleanNodes_singleton_of_skip {n : HNode} (h : isSkip n = true) :
    cleanNodes [n] = [] := by
  rw [cleanNodes, if_pos h, cleanNodes]

theorem cleanNodes_singleton_of_not_skip {n : HNode} (h : isSkip n = false) :
    cleanNodes [n] = [cleanNode n] := by
  rw [cleanNodes, if_neg (by simp [h]), cleanNodes]

/-- A skip-marked candidate node makes `try_one_from_node` panic: `clean`
removes the candidate from the wrapping root and the `next().unwrap()`
fires. -/
theorem tryOne_skip {n : HNode} (h : isSkip n = true) :
    tryOneFromNode n = .error () := by
  simp only [tryOneFromNode]
  rw [if_pos (hasSkips_singleton_of_isSkip h), cleanNodes_singleton_of_skip h]
  rfl

theorem forest_eq_effNode {n : HNode} (h : isSkip n = false) :
    (if hasSkips [n] then cleanNodes [n] else [n]) = [effNode n] := by
  unfold effNode
  by_cases hs : hasSkips [n]
  · rw [if_pos hs, if_pos hs, cleanNodes_singleton_of_not_skip h]
  · rw [if_neg hs, if_neg hs]

/-- A non-skip candidate without the marker class is "not a component". -/
theorem tryOne_not_marker {n : HNode} (h : isSkip n = false)
    (hm : markerAttrs n.attrs = false) : tryOneFromNode n = .ok none := by
  simp only [tryOneFromNode]
  rw [forest_eq_effNode h]
  have : markerAttrs (effNode n).attrs = false := by rw [effNode_attrs]; exact hm
  simp only [List.head?, this, Bool.false_eq_true, if_false]

/-- A non-skip candidate with the marker but no `id` is "not a component". -/
theorem tryOne_marker_no_id {n : HNode} (h : isSkip n = false)
    (hm : markerAttrs n.attrs = true) (hid : attrByName "id" n = none) :
    tryOneFromNode n = .ok none := by
  simp only [tryOneFromNode]
  rw [forest_eq_effNode h]
  have h1 : markerAttrs (effNode n).attrs = true := by rw [effNode_attrs]; exact hm
  have h2 : attrByName "id" (effNode n) = none := by
    rw [attrByName_congr _ (effNode_attrs n)]; exact hid
  simp only [List.head?, h1, if_true, h2]

/-- The successful case of `try_one_from_node`: non-skip candidate with the
marker class and an `id` attribute. -/
theorem tryOne_marker_id {n : HNode} {ia : HAttr} (h : isSkip n = false)
    (hm : markerAttrs n.attrs = true) (hid : attrByName "id" n = some ia) :
    tryOneFromNode n = .ok (some
      { name := ia.firstValue,
        html := mkRoot [effNode n],
        placeholders := insertA ia.firstValue
          { initial := ia.firstValue, new := none }
          (placeholderFold [effNode n]) }) := by
  simp only [tryOneFromNode]
  rw [forest_eq_effNode h]
  have h1 : markerAttrs (effNode n).attrs = true := by rw [effNode_attrs]; exact hm
  have h2 : attrByName "id" (effNode n) = some ia := by
    rw [attrByName_congr _ (effNode_attrs n)]; exact hid
  simp only [List.head?, h1, if_true, h2]

end TryOneLemmas

section FoldLemmas

theorem keys_ph_foldl (k : String) :
    ∀ (l : List HNode) (init : List (String × Placeholder)),
      (k ∈ keysA (l.foldl
        (fun mp n => insertA (firstIdValue n) (Placeholder.ofNode n) mp) init))
      ↔ (k ∈ l.map firstIdValue ∨ k ∈ keysA init) := by
  intro l
  induction l with
  | nil => simp
  | cons n t ih =>
    intro init
    rw [List.foldl_cons, ih, List.map_cons, List.mem_cons]
    rw [keys_insertA]
    tauto

theorem keys_placeholderFold (k : String) (forest : List HNode) :
    k ∈ keysA (placeholderFold forest) ↔
      k ∈ (fetchForest hasId forest).map firstIdValue := by
  rw [placeholderFold, keys_ph_foldl]
  simp [keysA]

theorem nodup_ph_foldl :
    ∀ (l : List HNode) (init : List (String × Placeholder)),
      (keysA init).Nodup →
      (keysA (l.foldl
        (fun mp n => insertA (firstIdValue n) (Placeholder.ofNode n) mp) init)).Nodup := by
  intro l
  induction l with
  | nil => intro init h; exact h
  | cons n t ih =>
    intro init h
    rw [List.foldl_cons]
    exact ih _ (keysA_nodup_insertA h)

/-- Every key of a constructed class's placeholder map is the class name or
the `id` first value of a fetched node of the pruned template forest. -/
theorem tryOne_placeholder_keys {n : HNode} {cl : Class}
    (h : tryOneFromNode n = .ok (some cl)) :
    ∀ k ∈ keysA cl.placeholders,
      k = cl.name ∨ ∃ x ∈ fetchForest hasId [effNode n], firstIdValue x = k := by
  by_cases hs : isSkip n
  · rw [tryOne_skip hs] at h; cases h
  · rcases hmk : markerAttrs n.attrs with _ | _
    · rw [tryOne_not_marker (by simpa using hs) hmk] at h; cases h
    · rcases hid : attrByName "id" n with _ | ia
      · rw [tryOne_marker_no_id (by simpa using hs) hmk hid] at h; cases h
      · rw [tryOne_marker_id (by simpa using hs) hmk hid] at h
        injection h with h
        injection h with h
        subst h
        intro k hk
        rcases (keys_insertA _).mp hk with rfl | hk'
        · exact Or.inl rfl
        · rcases List.mem_map.mp ((keys_placeholderFold _ _).mp hk') with ⟨x, hx, rfl⟩
          exact Or.inr ⟨x, hx, rfl⟩

/-- The class root of a successful `try_one_from_node` is the (pruned)
candidate itself, its name is its `id` first value, and it is not
skip-marked. -/
theorem tryOne_name {n : HNode} {cl : Class}
    (h : tryOneFromNode n = .ok (some cl)) :
    isSkip n = false ∧ firstIdValue? (effNode n) = some cl.name := by
  by_cases hs : isSkip n
  · rw [tryOne_skip hs] at h; cases h
  · rcases hmk : markerAttrs n.attrs with _ | _
    · rw [tryOne_not_marker (by simpa using hs) hmk] at h; cases h
    · rcases hid : attrByName "id" n with _ | ia
      · rw [tryOne_marker_no_id (by simpa using hs) hmk hid] at h; cases h
      · rw [tryOne_marker_id (by simpa using hs) hmk hid] at h
        injection h with h
        injection h with h
        subst h
        refine ⟨by simpa using hs, ?_⟩
        have : attrByName "id" (effNode n) = some ia := by
          rw [attrByName_congr _ (effNode_attrs n)]; exact hid
        rw [firstIdValue?, this]
        rfl

/-- A class produced by the top-level loop of `try_from_html` comes from
one of the document's top-level children. -/
theorem tryFromHtmlNodes_ok_some {cs : List HNode} {cl : Class}
    (h : tryFromHtmlNodes cs = .ok (some cl)) :
    ∃ n ∈ cs, tryOneFromNode n = .ok (some cl) := by
  induction cs with
  | nil => cases h
  | cons c t ih =>
    rw [tryFromHtmlNodes] at h
    rcases hc : tryOneFromNode c with e | oc
    · rw [hc] at h; cases h
    · rcases oc with _ | cl'
      · rw [hc] at h
        rcases ih h with ⟨n, hn, hn'⟩
        exact ⟨n, List.mem_cons_of_mem _ hn, hn'⟩
      · rw [hc] at h
        injection h with h
        exact ⟨c, List.mem_cons_self _ _, by rw [hc, h]⟩

/-- Top-level children that are "not a component" are passed over. -/
theorem tryFromHtmlNodes_append_none {pre : List HNode}
    (hpre : ∀ c ∈ pre, tryOneFromNode c = .ok none) (rest : List HNode) :
    tryFromHtmlNodes (pre ++ rest) = tryFromHtmlNodes rest := by
  induction pre with
  | nil => rfl
  | cons c t ih =>
    rw [List.cons_append, tryFromHtmlNodes, hpre c (List.mem_cons_self _ _)]
    exact ih fun x hx => hpre x (List.mem_cons_of_mem _ hx)

/-- Entries of the map built by `all_from_html` all satisfy a property
that holds of the starting entries and of every constructed class. -/
theorem allFromHtmlLoop_mem (P : String × Class → Prop) :
    ∀ (l : List HNode) (acc m : List (String × Class)),
      allFromHtmlLoop acc l = .ok m →
      (∀ e ∈ acc, P e) →
      (∀ n ∈ l, ∀ cl, tryOneFromNode n = .ok (some cl) → P (cl.name, cl)) →
      ∀ e ∈ m, P e := by
  intro l
  induction l with
  | nil =>
    intro acc m h hacc _
    rw [allFromHtmlLoop] at h
    injection h with h
    exact h ▸ hacc
  | cons n t ih =>
    intro acc m h hacc hl
    rw [allFromHtmlLoop] at h
    rcases hn : tryOneFromNode n with e | oc
    · rw [hn] at h; cases h
    · rcases oc with _ | cl
      · rw [hn] at h; cases h
      · rw [hn] at h
        refine ih _ m h ?_ fun x hx => hl x (List.mem_cons_of_mem _ hx)
        intro e he
        rcases mem_insertA he with rfl | he'
        · exact hl n (List.mem_cons_self _ _) cl hn
        · exact hacc e he'

/-- Keys of the map built by `all_from_html` stay duplicate-free. -/
theorem allFromHtmlLoop_nodup :
    ∀ (l : List HNode) (acc m : List (String × Class)),
      allFromHtmlLoop acc l = .ok m → (keysA acc).Nodup → (keysA m).Nodup := by
  intro l
  induction l with
  | nil =>
    intro acc m h hacc
    rw [allFromHtmlLoop] at h
    injection h with h
    exact h ▸ hacc
  | cons n t ih =>
    intro acc m h hacc
    rw [allFromHtmlLoop] at h
    rcases hn : tryOneFromNode n with e | oc
    · rw [hn] at h; cases h
    · rcases oc with _ | cl
      · rw [hn] at h; cases h
      · rw [hn] at h
        exact ih _ m h (keysA_nodup_insertA hacc)

end FoldLemmas


section RequestLemmas

theorem lookupN_filter_ne {α : Type} (id : Nat) :
    ∀ l : List (Nat × α), lookupN id (l.filter (fun e => e.1 ≠ id)) = none := by
  intro l
  induction l with
  | nil => rfl
  | cons e t ih =>
    by_cases h : e.1 = id
    · rw [List.filter_cons_of_neg (by simpa using h)]; exact ih
    · rw [List.filter_cons_of_pos (by simpa using h), lookupN, if_neg h]; exact ih

/-- C6: after `RequestBuilder::eval`, a synchronously failed script
evaluation leaves no entry under the request id and drops the stored
sender, so the waiting caller's `recv` fails (channel closed) instead of
blocking; a successful evaluation leaves the sender registered under the
request id. -/
theorem C6_request_eval_abandons_or_registers (v : ViewRequests) (id tx : Nat)
    (htx : ∀ e ∈ v.requests, e.2 ≠ tx) :
    (lookupN id (RequestBuilder.eval v id tx true).requests = none ∧
      senderAlive (RequestBuilder.eval v id tx true) tx = false) ∧
    lookupN id (RequestBuilder.eval v id tx false).requests = some tx := by
  refine ⟨⟨?_, ?_⟩, ?_⟩
  · simp only [RequestBuilder.eval, View.removeRequest, if_true]
    exact lookupN_filter_ne id _
  · simp only [RequestBuilder.eval, View.removeRequest, if_true, senderAlive]
    rw [List.any_eq_false]
    intro e he
    have he1 := List.mem_filter.mp he
    rcases List.mem_cons.mp he1.1 with rfl | he2
    · have : ((id, tx).1 ≠ id) := by simpa using he1.2
      exact absurd rfl this
    · have := htx e (List.mem_filter.mp he2).1
      simpa using this
  · simp only [RequestBuilder.eval, if_false, Bool.false_eq_true]
    rw [lookupN, if_pos rfl]

end RequestLemmas

/-- C7 (counterexample): on an abandoned request — the reply channel is
closed, `recv` fails — `Element::attribute` panics
(`receiver.recv().unwrap()`), contradicting the claim that no query
operation panics except the build-time invariant violation. -/
theorem C7_attribute_panics_on_abandoned_reply :
    attributeOfReply none = .error () := rfl

/-- C7 (amended): `Element::dom_html` either returns a value or indicates
failure (it maps a closed reply channel to `none` without panicking, and a
string reply to `none`/`some`), and `Element::attribute` does so for
string replies; but `Element::attribute` panics on an abandoned
(channel-closed) reply, and `View::remove_callback` panics exactly on ids
that are not registered. -/
theorem C7_query_failure_modes :
    domHtmlOfReply none = .ok none ∧
    (∀ s, domHtmlOfReply (some (.Str s)) = .ok (if s.isEmpty then none else some s)) ∧
    (∀ s, attributeOfReply (some (.Str s)) = .ok (if s = "" then none else some s)) ∧
    attributeOfReply none = .error () ∧
    (∀ cbs id, removeCallbackM cbs id = .error () ↔ cbs.contains id = false) := by
  refine ⟨rfl, fun s => rfl, fun s => rfl, rfl, fun cbs id => ?_⟩
  rw [removeCallbackM]
  by_cases h : cbs.contains id
  · rw [if_pos h, h]
    constructor
    · intro hx; cases hx
    · intro hx; cases hx
  · rw [if_neg h]
    simp only [Bool.not_eq_true] at h
    rw [h]
    exact ⟨fun _ => rfl, fun _ => rfl⟩

section QuoteLemmas

/-- The output of `js_prefix_quotes` has every quote directly preceded by a
backslash, whatever character precedes the output. -/
theorem quotesPrefixedFrom_jsPrefix :
    ∀ l : List Char, ∀ prev : Option Char,
      quotesPrefixedFrom prev (jsPrefixQuotesL l) = true := by
  intro l
  induction l with
  | nil => intro prev; rfl
  | cons c cs ih =>
    intro prev
    rw [jsPrefixQuotesL]
    by_cases hq : c = '\'' ∨ c = '"'
    · rw [if_pos (by simpa using hq)]
      rw [quotesPrefixedFrom, quotesPrefixedFrom]
      have h1 : isQuoteChar '\\' = false := rfl
      have h2 : (some '\\' == some '\\') = true := rfl
      rw [h1, h2]
      simp only [Bool.not_false, Bool.true_and, Bool.or_true, Bool.true_and]
      exact ih _
    · rw [if_neg (by simpa using hq)]
      rw [quotesPrefixedFrom]
      have h1 : isQuoteChar c = false := by
        rw [isQuoteChar]
        simpa using hq
      rw [h1]
      simp only [Bool.not_false, Bool.true_or, Bool.true_and]
      exact ih _

theorem quotesPrefixed_js_prefix_quotes (s : String) :
    quotesPrefixed (js_prefix_quotes s) = true := by
  rw [quotesPrefixed, js_prefix_quotes]
  exact quotesPrefixedFrom_jsPrefix s.data none

end QuoteLemmas

/-- C8: `Element::set_attribute` (and `append_inner_html`) escape the
interpolated payload with `js_prefix_quotes`, whose output always has
every quote backslash-prefixed; but `RootComponent::add_component`
interpolates the nested component's serialised markup raw — for the markup
`<p id="x"></p>` the emitted command contains the unescaped `"` payload,
contradicting the required escaping. -/
theorem C8_root_add_component_payload_unescaped :
    (∀ s : String, quotesPrefixed (js_prefix_quotes s) = true) ∧
    (∀ id nm v : String, setAttributeJs id nm v =
      "document.getElementById('" ++ id ++ "').setAttribute('" ++ nm ++ "', '"
        ++ js_prefix_quotes v ++ "');") ∧
    quotesPrefixed "<p id=\"x\"></p>" = false ∧
    rootAddComponentJs "uitacoBody" "<p id=\"x\"></p>" =
      "var i = document.getElementById('uitacoBody');\n            i.innerHTML += '<p id=\"x\"></p>';\n        " ∧
    js_prefix_quotes "<p id=\"x\"></p>" = "<p id=\\\"x\\\"></p>" := by
  exact ⟨quotesPrefixed_js_prefix_quotes, fun id nm v => rfl, rfl, rfl, rfl⟩

section RegistryLemmas

/-- The number of `add_component` calls in an operation sequence. -/
def numAdds : List ViewOp → Nat
  | [] => 0
  | .add :: ops => numAdds ops + 1
  | .remove _ :: ops => numAdds ops

theorem runViewOps_append (v : ViewComponents) (l₁ l₂ : List ViewOp) :
    runViewOps v (l₁ ++ l₂) = runViewOps (runViewOps v l₁) l₂ := by
  induction l₁ generalizing v with
  | nil => rfl
  | cons op t ih =>
    cases op with
    | add => rw [List.cons_append, runViewOps, runViewOps, ih]
    | remove i => rw [List.cons_append, runViewOps, runViewOps, ih]

theorem runViewOps_next_mono (v : ViewComponents) (ops : List ViewOp) :
    v.next_component_id ≤ (runViewOps v ops).next_component_id := by
  induction ops generalizing v with
  | nil => exact le_refl _
  | cons op t ih =>
    cases op with
    | add =>
      rw [runViewOps]
      exact le_trans (Nat.le_succ _) (ih (View.addComponent v).1)
    | remove i =>
      rw [runViewOps]
      exact ih (View.removeComponent v i).1

theorem viewInv_step (v : ViewComponents) (h : ViewInv v) :
    ∀ op : ViewOp, ViewInv (match op with
      | .add => (View.addComponent v).1
      | .remove i => (View.removeComponent v i).1) := by
  intro op
  cases op with
  | add =>
    refine ⟨?_, ?_⟩
    · intro i hi
      unfold View.addComponent at hi
      rcases List.mem_append.mp hi with hi' | hi'
      · exact lt_trans (h.1 i hi') (Nat.lt_succ_self _)
      · rw [List.mem_singleton.mp hi']
        exact Nat.lt_succ_self _
    · unfold View.addComponent
      refine List.Nodup.append h.2 (List.nodup_singleton _) ?_
      intro a ha hb
      rw [List.mem_singleton.mp hb] at ha
      exact absurd (h.1 _ ha) (lt_irrefl _)
  | remove i =>
    refine ⟨?_, ?_⟩
    · intro j hj
      unfold View.removeComponent at hj
      exact h.1 j (List.mem_filter.mp hj).1
    · unfold View.removeComponent
      exact h.2.filter _

theorem viewInv_runViewOps (v : ViewComponents) (h : ViewInv v)
    (ops : List ViewOp) : ViewInv (runViewOps v ops) := by
  induction ops generalizing v with
  | nil => exact h
  | cons op t ih =>
    cases op with
    | add => exact ih _ (viewInv_step v h .add)
    | remove i => exact ih _ (viewInv_step v h (.remove i))

/-- The ids handed out along a sequence are exactly the next `numAdds ops`
counter values, in order. -/
theorem assignedIds_eq_range' (v : ViewComponents) (ops : List ViewOp) :
    assignedIds v ops = List.range' v.next_component_id (numAdds ops) := by
  induction ops generalizing v with
  | nil => rfl
  | cons op t ih =>
    cases op with
    | add =>
      rw [assignedIds, numAdds, List.range'_succ, ih]
      rfl
    | remove i =>
      rw [assignedIds, numAdds, ih]
      rfl

end RegistryLemmas

/-- C10: along every operation sequence on the component registry the ids
handed out by `add_component` strictly increase (each exceeds all earlier
ones); an id still registered when `remove_component` drops it is never
handed out again afterwards; and id-based `ComponentHandle`
equality/hashing never identifies two distinct registered components,
because the registered ids stay pairwise distinct. -/
theorem C10_component_ids_monotone (v0 : ViewComponents) (h : ViewInv v0) :
    (∀ ops, (assignedIds v0 ops).Pairwise (· < ·)) ∧
    (∀ ops1 i ops2, i ∈ (runViewOps v0 ops1).components →
      i ∉ assignedIds (runViewOps v0 (ops1 ++ [ViewOp.remove i])) ops2) ∧
    (∀ ops, ((runViewOps v0 ops).components).Pairwise
      (fun a b => handleEq a b = false)) := by
  refine ⟨?_, ?_, ?_⟩
  · intro ops
    rw [assignedIds_eq_range' v0 ops]
    exact List.pairwise_lt_range' _ _
  · intro ops1 i ops2 hi hmem
    have hinv : ViewInv (runViewOps v0 ops1) := viewInv_runViewOps v0 h ops1
    have hlt : i < (runViewOps v0 ops1).next_component_id := hinv.1 i hi
    rw [runViewOps_append] at hmem
    rw [assignedIds_eq_range' _ ops2] at hmem
    have hnext : (runViewOps (runViewOps v0 ops1) [ViewOp.remove i]).next_component_id
        = (runViewOps v0 ops1).next_component_id := rfl
    rw [hnext] at hmem
    have := (List.mem_range'_1.mp hmem).1
    exact absurd (lt_of_lt_of_le hlt this) (lt_irrefl i)
  · intro ops
    have hinv : ViewInv (runViewOps v0 ops) := viewInv_runViewOps v0 h ops
    refine hinv.2.imp ?_
    intro a b hab
    rw [handleEq]
    exact beq_eq_false_iff_ne.mpr hab

/-- C10 witness: the invariant holds of a fresh view and a concrete
operation sequence hands out strictly increasing ids. -/
theorem C10_component_ids_monotone_witness :
    ViewInv ⟨0, []⟩ ∧
    (assignedIds ⟨0, []⟩ [ViewOp.add, ViewOp.add, ViewOp.remove 0, ViewOp.add]).Pairwise
      (· < ·) := by
  have h : ViewInv (⟨0, []⟩ : ViewComponents) := by
    constructor
    · intro i hi; cases hi
    · exact List.nodup_nil
  exact ⟨h, (C10_component_ids_monotone ⟨0, []⟩ h).1 _⟩

section ConcreteData

/-- The `<p id="label"></p>` node of claim C1's markup. -/
def c1p : HNode := .node (some "p") [⟨"id", ["label"]⟩] []

/-- The `<div class="uitacoComponent" id="card">...</div>` node of claim
C1's markup. -/
def c1div : HNode :=
  .node (some "div") [⟨"class", ["uitacoComponent"]⟩, ⟨"id", ["card"]⟩] [c1p]

/-- The parsed document of claim C1's markup
`<div class="uitacoComponent" id="card"><p id="label"></p></div>`. -/
def c1doc : HNode := mkRoot [c1div]

/-- The class built from C1's markup. -/
def c1cl : Class :=
  { name := "card", html := c1doc,
    placeholders := [("card", ⟨"card", none⟩), ("label", ⟨"label", none⟩)] }

/-- The component built from `c1cl` with `label → "lbl42"` assigned and the
root placeholder left unassigned: the root `div`'s id is overwritten with
the empty string, `label`'s with `"lbl42"`. -/
def c1component : ComponentBase :=
  { cls := c1cl,
    html := mkRoot [.node (some "div")
      [⟨"class", ["uitacoComponent"]⟩, ⟨"id", [""]⟩]
      [.node (some "p") [⟨"id", ["lbl42"]⟩] []]],
    elements := [("label", ⟨.P, "lbl42"⟩), ("card", ⟨.Unknown "div", ""⟩)],
    components := [] }

-- The model reproduces the repository's own test `class_from_html`.
example : (tryFromHtml c1doc).map (Option.map Class.name) = .ok (some "card") := rfl

/-- The parsed document of the repository's test `all_classes_from_html`. -/
def tdoc : HNode := mkRoot [.node (some "body") []
  [ .node (some "p") [⟨"class", ["uitacoComponent"]⟩, ⟨"id", ["comp1"]⟩] [],
    .node (some "div") [⟨"class", ["uitacoComponent"]⟩, ⟨"id", ["comp2"]⟩]
      [.node (some "p") [⟨"id", ["pl"]⟩] []] ]]

-- The model reproduces the repository's own test `all_classes_from_html`.
example : (allFromHtml tdoc).map keysA = .ok ["comp2", "comp1"] := rfl
example : ((allFromHtml tdoc).map fun m =>
    (lookupA "comp2" m).map fun cl => keysA cl.placeholders)
    = .ok (some ["comp2", "pl"]) := rfl

/-- The parsed document of the repository's test `class_from_html_skip`. -/
def sdoc : HNode := mkRoot [.node (some "div")
  [⟨"class", ["uitacoComponent"]⟩, ⟨"id", ["some"]⟩]
  [.node (some "p") [⟨"class", ["uitacoSkip"]⟩, ⟨"id", ["other"]⟩] []]]

-- The model reproduces the repository's own test `class_from_html_skip`.
example : (allFromHtml sdoc).map keysA = .ok ["some"] := rfl
example : ((allFromHtml sdoc).map fun m =>
    (lookupA "some" m).map fun cl => keysA cl.placeholders)
    = .ok (some ["some"]) := rfl

end ConcreteData

/-- C1 (counterexample): building C1's class with `label → "lbl42"` and the
root placeholder `card` unassigned does NOT leave the root element's
current name `"card"`: `build` overwrites the unassigned root
placeholder's id with the empty string, so `Component::name` returns `""`. -/
theorem C1_root_name_not_card :
    tryFromHtml c1doc = .ok (some c1cl) ∧
    ((InstanceBuilder.newForClass c1cl).assignName "label" "lbl42").build
      = some c1component ∧
    c1component.nameM = some "" ∧ c1component.nameM ≠ some "card" := by
  refine ⟨rfl, rfl, rfl, ?_⟩
  intro h
  rw [show c1component.nameM = some "" from rfl] at h
  injection h with h
  exact absurd h (by decide)

/-- C1 (amended): building C1's class with `label → "lbl42"` and the root
placeholder unassigned yields a component whose `elements` map binds key
`"label"` to an element with rendered identifier `"lbl42"` (and key
`"card"` to the root element), while the root element's current name
(`Component::name`) is the empty string — the unassigned root
placeholder's identifier is cleared, not preserved. -/
theorem C1_instantiation_end_to_end :
    tryFromHtml c1doc = .ok (some c1cl) ∧
    ((InstanceBuilder.newForClass c1cl).assignName "label" "lbl42").build
      = some c1component ∧
    (lookupA "label" c1component.elements).map BuiltElement.id = some "lbl42" ∧
    (lookupA "card" c1component.elements).map BuiltElement.id = some "" ∧
    c1component.nameM = some "" :=
  ⟨rfl, rfl, rfl, rfl, rfl⟩

/-- C6 witness: concrete instance of the request-eval theorem. -/
theorem C6_request_eval_witness :
    (∀ e ∈ ({ requests := [(5, 9)] } : ViewRequests).requests, e.2 ≠ 7) ∧
    ((lookupN 1 (RequestBuilder.eval ⟨[(5, 9)]⟩ 1 7 true).requests = none ∧
      senderAlive (RequestBuilder.eval ⟨[(5, 9)]⟩ 1 7 true) 7 = false) ∧
     lookupN 1 (RequestBuilder.eval ⟨[(5, 9)]⟩ 1 7 false).requests = some 7) :=
  ⟨by decide, C6_request_eval_abandons_or_registers ⟨[(5, 9)]⟩ 1 7 (by decide)⟩

section BuilderLemmas

/-- A placeholder-customisation step on an `InstanceBuilder`
(`element_by_id_mut` plus `set_name`/`remove_name`). -/
inductive PhOp where
  | assign (id nm : String)
  | clear (id : String)
deriving Repr, DecidableEq

/-- Apply a sequence of placeholder customisations. -/
def applyPhOps (b : InstanceBuilder) : List PhOp → InstanceBuilder
  | [] => b
  | .assign id nm :: ops => applyPhOps (b.assignName id nm) ops
  | .clear id :: ops => applyPhOps (b.clearName id) ops

theorem keysA_map_fst_pres {α : Type} (f : String × α → String × α)
    (hf : ∀ e, (f e).1 = e.1) :
    ∀ l : List (String × α), keysA (l.map f) = keysA l := by
  intro l
  induction l with
  | nil => rfl
  | cons e t ih =>
    rw [List.map_cons, keysA, List.map_cons, hf e]
    rw [keysA] at ih
    rw [ih]
    rfl

/-- Placeholder customisation never changes the key set of the builder's
placeholder map. -/
theorem applyPhOps_keys (ops : List PhOp) :
    ∀ b : InstanceBuilder,
      keysA (applyPhOps b ops).placeholders = keysA b.placeholders := by
  induction ops with
  | nil => intro b; rfl
  | cons op t ih =>
    intro b
    cases op with
    | assign id nm =>
      rw [applyPhOps, ih]
      exact keysA_map_fst_pres _ (fun e => by by_cases h : e.1 = id <;> simp [h]) _
    | clear id =>
      rw [applyPhOps, ih]
      exact keysA_map_fst_pres _ (fun e => by by_cases h : e.1 = id <;> simp [h]) _

theorem keys_eraseA_sub {α : Type} {k k' : String} {l : List (String × α)}
    (h : k ∈ keysA (eraseA k' l)) : k ∈ keysA l := by
  rcases List.mem_map.mp h with ⟨e, he, rfl⟩
  exact List.mem_map.mpr ⟨e, (mem_eraseA l he).1, rfl⟩

/-- Keys of the element map produced by the placeholder loop of `build`:
every key is a placeholder key or was already in the accumulator. -/
theorem buildSteps_keys :
    ∀ (phs : List (String × Placeholder))
      (st : HNode × List (String × BuiltElement))
      (res : HNode × List (String × BuiltElement)),
      phs.foldlM buildStep st = some res →
      ∀ k ∈ keysA res.2, k ∈ keysA phs ∨ k ∈ keysA st.2 := by
  intro phs
  induction phs with
  | nil =>
    intro st res h k hk
    rw [List.foldlM] at h
    injection h with h
    exact Or.inr (h ▸ hk)
  | cons pr t ih =>
    intro st res h k hk
    rw [List.foldlM_cons] at h
    rcases hstep : buildStep st pr with _ | st'
    · rw [hstep] at h; cases h
    · rw [hstep] at h
      replace h : t.foldlM buildStep st' = some res := h
      have hkeys := ih st' res h k hk
      rcases hkeys with hk' | hk'
      · exact Or.inl (List.mem_cons_of_mem _ hk')
      · rw [buildStep] at hstep
        rcases hov : overwriteFirstIdN pr.1 (pr.2.new.getD "") st.1 with _ | pair
        · rw [hov] at hstep; cases hstep
        · rw [hov] at hstep
          obtain ⟨nhtml, nnode⟩ := pair
          replace hstep : (tryImplFromNode nnode).bind
              (fun elem => some (nhtml, insertA pr.1 elem st.2)) = some st' := hstep
          rcases hel : tryImplFromNode nnode with _ | elem
          · rw [hel] at hstep
            cases hstep
          · rw [hel] at hstep
            replace hstep : some (nhtml, insertA pr.1 elem st.2) = some st' := hstep
            injection hstep with hstep
            rw [← hstep] at hk'
            rcases (keys_insertA _).mp hk' with rfl | hk''
            · exact Or.inl (List.mem_cons_self _ _)
            · exact Or.inr hk''

/-- Keys of a built component's element map are placeholder keys of the
builder (hence of the class). -/
theorem build_elements_keys {b : InstanceBuilder} {cb : ComponentBase}
    (h : b.build = some cb) :
    ∀ k ∈ keysA cb.elements, k ∈ keysA b.placeholders := by
  rw [InstanceBuilder.build] at h
  rcases hf : b.placeholders.foldlM buildStep (b.cls.html, []) with _ | res
  · rw [hf] at h; cases h
  · rw [hf] at h
    replace h : some (⟨b.cls, res.1, res.2, []⟩ : ComponentBase) = some cb := h
    injection h with h
    intro k hk
    rw [← h] at hk
    rcases buildSteps_keys _ _ _ hf k hk with hk' | hk'
    · exact hk'
    · cases hk'

/-- Running child-logic operations only adds keys that `add_child` brought
in: every final key satisfies the starting bound or was added. -/
theorem runChildOps_keys :
    ∀ (ops : List ChildOp) (P : String → Prop) (cb : ComponentBase),
      (∀ k ∈ keysA cb.elements, P k) →
      ∀ k ∈ keysA (runChildOps cb ops).elements,
        P k ∨ k ∈ addedChildIds ops := by
  intro ops
  induction ops with
  | nil =>
    intro P cb hbase k hk
    exact Or.inl (hbase k hk)
  | cons op t ih =>
    intro P cb hbase k hk
    cases op with
    | add c =>
      rw [runChildOps] at hk
      rw [addedChildIds]
      by_cases hpres : (lookupA c.id cb.elements).isSome
      · rw [ComponentBase.addChild, if_pos hpres] at hk
        rcases ih P cb hbase k hk with h' | h'
        · exact Or.inl h'
        · exact Or.inr (List.mem_cons_of_mem _ h')
      · rw [ComponentBase.addChild, if_neg hpres] at hk
        have hbase' : ∀ k' ∈ keysA (insertA c.id c cb.elements),
            P k' ∨ k' = c.id := by
          intro k' hk'
          rcases (keys_insertA _).mp hk' with rfl | hk''
          · exact Or.inr rfl
          · exact Or.inl (hbase k' hk'')
        rcases ih (fun k' => P k' ∨ k' = c.id) _ hbase' k hk with (h' | h') | h'
        · exact Or.inl h'
        · exact Or.inr (h' ▸ List.mem_cons_self _ _)
        · exact Or.inr (List.mem_cons_of_mem _ h')
    | remove i =>
      rw [runChildOps] at hk
      rw [addedChildIds]
      have hbase' : ∀ k' ∈ keysA ((cb.removeChild i).1).elements, P k' := by
        intro k' hk'
        rw [ComponentBase.removeChild] at hk'
        exact hbase k' (keys_eraseA_sub hk')
      exact ih P _ hbase' k hk

end BuilderLemmas

/-- C4 (counterexample): right after `build` — no `add_child` ever ran —
the `elements` map of C1's component contains the key `"card"` although
the `card` placeholder received no (non-empty) assigned name, refuting the
claimed bound "placeholders that received non-empty assigned names plus
ids added via add_child". -/
theorem C4_unassigned_placeholder_key_present :
    ((InstanceBuilder.newForClass c1cl).assignName "label" "lbl42").build
      = some c1component ∧
    "card" ∈ keysA c1component.elements ∧
    lookupA "card"
      ((InstanceBuilder.newForClass c1cl).assignName "label" "lbl42").placeholders
      = some { initial := "card", new := none } ∧
    addedChildIds [] = [] :=
  ⟨rfl, by decide, rfl, rfl⟩

/-- C4 (amended): after `build` and any sequence of `add_child` /
`remove_child` operations, the key set of `elements` is a subset of ALL of
the class's placeholder identifiers (assigned or not — `build` binds an
element for every placeholder) plus the identifiers added by `add_child`. -/
theorem C4_elements_keys_bounded (cl : Class) (phops : List PhOp)
    (cb : ComponentBase) (ops : List ChildOp)
    (hb : (applyPhOps (InstanceBuilder.newForClass cl) phops).build = some cb) :
    ∀ k ∈ keysA (runChildOps cb ops).elements,
      k ∈ keysA cl.placeholders ∨ k ∈ addedChildIds ops := by
  have hbase : ∀ k ∈ keysA cb.elements, k ∈ keysA cl.placeholders := by
    intro k hk
    have := build_elements_keys hb k hk
    rw [applyPhOps_keys] at this
    exact this
  exact runChildOps_keys ops _ cb hbase

/-- C4 witness: concrete instance — C1's component, one added child. -/
theorem C4_elements_keys_bounded_witness :
    (applyPhOps (InstanceBuilder.newForClass c1cl) [PhOp.assign "label" "lbl42"]).build
      = some c1component ∧
    (∀ k ∈ keysA (runChildOps c1component [ChildOp.add ⟨.Span, "extra"⟩]).elements,
      k ∈ keysA c1cl.placeholders ∨ k ∈ addedChildIds [ChildOp.add ⟨.Span, "extra"⟩]) :=
  ⟨rfl, C4_elements_keys_bounded c1cl [PhOp.assign "label" "lbl42"] c1component
    [ChildOp.add ⟨.Span, "extra"⟩] rfl⟩

/-- A marker-tagged node with no `id` attribute (C5's counterexample). -/
def c5markerNoId : HNode := .node (some "div") [⟨"class", ["uitacoComponent"]⟩] []

/-- A plain candidate node: no marker, no skip (C5's witness data). -/
def c5plain : HNode := .node (some "p") [] []

/-- C5 (counterexample): a candidate that carries the marker but lacks an
`id` attribute is indeed "not a component" for `try_one_from_node`, but
batch discovery (`Class::all_from_html`) `.unwrap()`s that result and
panics on the very same node — examining it during batch discovery faults
instead of being a quiet negative. -/
theorem C5_batch_discovery_faults_on_marker_without_id :
    isMarker c5markerNoId = true ∧
    attrByName "id" c5markerNoId = none ∧
    tryOneFromNode c5markerNoId = .ok none ∧
    allFromHtml (mkRoot [c5markerNoId]) = .error () :=
  ⟨rfl, rfl, rfl, rfl⟩

/-- C5 (amended): for every candidate node that is not itself skip-marked
and lacks the component-marker class value or lacks an identifier
attribute, `Class::try_one_from_node` returns the negative result `None`
without faulting, and `Class::try_from_html` on a document whose top-level
children are all such candidates returns `None` without faulting.  (A
skip-marked candidate panics inside `try_one_from_node`, and batch
discovery panics on a marker-tagged candidate without an identifier, so
the original unconditional claim fails there.) -/
theorem C5_not_a_component_is_quiet_negative :
    (∀ n : HNode, isSkip n = false →
      (isMarker n = false ∨ attrByName "id" n = none) →
      tryOneFromNode n = .ok none) ∧
    (∀ doc : HNode,
      (∀ c ∈ doc.children,
        isSkip c = false ∧ (isMarker c = false ∨ attrByName "id" c = none)) →
      tryFromHtml doc = .ok none) := by
  have hone : ∀ n : HNode, isSkip n = false →
      (isMarker n = false ∨ attrByName "id" n = none) →
      tryOneFromNode n = .ok none := by
    intro n hs hcase
    rcases hcase with hm | hid
    · exact tryOne_not_marker hs hm
    · by_cases hm : markerAttrs n.attrs
      · exact tryOne_marker_no_id hs hm hid
      · exact tryOne_not_marker hs (by simpa using hm)
  have hlist : ∀ cs : List HNode,
      (∀ c ∈ cs,
        isSkip c = false ∧ (isMarker c = false ∨ attrByName "id" c = none)) →
      tryFromHtmlNodes cs = .ok none := by
    intro cs
    induction cs with
    | nil => intro _; rfl
    | cons c t ih =>
      intro h
      rw [tryFromHtmlNodes]
      have hc := h c (List.mem_cons_self _ _)
      rw [hone c hc.1 hc.2]
      exact ih fun x hx => h x (List.mem_cons_of_mem _ hx)
  exact ⟨hone, fun doc h => hlist doc.children h⟩

/-- C5 witness: a markerless top-level child is a quiet negative. -/
theorem C5_not_a_component_witness :
    (isSkip c5plain = false ∧ isMarker c5plain = false) ∧
    tryOneFromNode c5plain = .ok none ∧
    tryFromHtml (mkRoot [c5plain]) = .ok none := by
  refine ⟨⟨rfl, rfl⟩, ?_, ?_⟩
  · exact C5_not_a_component_is_quiet_negative.1 c5plain rfl (Or.inl rfl)
  · refine C5_not_a_component_is_quiet_negative.2 (mkRoot [c5plain]) ?_
    intro c hc
    have : c = c5plain := by
      rcases List.mem_singleton.mp (by exact hc) with h
      exact h
    rw [this]
    exact ⟨rfl, Or.inl rfl⟩

theorem fetchNode_eq (p : HNode → Bool) (n : HNode) :
    fetchNode p n = (if p n then [n] else []) ++ fetchForest p n.children := by
  cases n with
  | node t a cs => rw [fetchNode]; rfl

/-- C2's marker-tagged node: id `x`, two descendants with ids `a`, `b`. -/
def c2div : HNode :=
  .node (some "div") [⟨"class", ["uitacoComponent"]⟩, ⟨"id", ["x"]⟩]
    [.node (some "p") [⟨"id", ["a"]⟩] [], .node (some "span") [⟨"id", ["b"]⟩] []]

/-- C2 counterexample data: the unique marker node sits one level below an
unmarked top-level `body` wrapper. -/
def c2nestedDoc : HNode := mkRoot [.node (some "body") [] [c2div]]

/-- C2 (counterexample): `c2nestedDoc` satisfies every hypothesis of the
claim — exactly one node carries the marker, it has non-empty id `x` and
descendants with ids `a` and `b`, all pairwise distinct — yet
`Class::try_from_html` returns `None` (no class named `x`): the function
only examines top-level children of the parsed document, and the marker
node is nested. -/
theorem C2_nested_marker_not_found :
    (allNodes c2nestedDoc).countP (fun n => isMarker n) = 1 ∧
    isMarker c2div = true ∧
    firstIdValue? c2div = some "x" ∧ ("x" : String) ≠ "" ∧
    (fetchForest hasId c2div.children).map firstIdValue = ["a", "b"] ∧
    (("x" : String) ≠ "a" ∧ ("x" : String) ≠ "b" ∧ ("a" : String) ≠ "b") ∧
    tryFromHtml c2nestedDoc = .ok none :=
  ⟨rfl, rfl, rfl, by decide, rfl, by decide, rfl⟩

/-- C2 (amended): for every parsed document whose top-level children hold
a marker-tagged node `m` (with non-empty id first value `X`, and no
earlier top-level sibling carrying the marker), whose nodes carry no skip
mark, and whose `id`-carrying proper descendants of `m` have exactly the
id first values `a` then `b` (`X`, `a`, `b` pairwise distinct),
`Class::try_from_html` yields a class named `X` whose placeholder key set
is exactly `{X, a, b}`. -/
theorem C2_first_marker_yields_class (doc : HNode) (pre post : List HNode)
    (m : HNode) (X a b : String)
    (hchild : doc.children = pre ++ m :: post)
    (hpre : ∀ c ∈ pre, isMarker c = false)
    (hnoskip : ∀ n ∈ allNodes doc, isSkip n = false)
    (hm : isMarker m = true)
    (hid : firstIdValue? m = some X)
    (hX : X ≠ "")
    (hdesc : (fetchForest hasId m.children).map firstIdValue = [a, b])
    (hdist : X ≠ a ∧ X ≠ b ∧ a ≠ b) :
    ∃ cl, tryFromHtml doc = .ok (some cl) ∧ cl.name = X ∧
      ∀ k, (lookupA k cl.placeholders).isSome = true ↔ (k = X ∨ k = a ∨ k = b) := by
  -- every node of a top-level child is a node of the document
  have hsub : ∀ c ∈ doc.children, ∀ x ∈ allNodes c, x ∈ allNodes doc := by
    intro c hc x hx
    cases doc with
    | node t at' cs =>
      rw [allNodes_eq]
      rw [show HNode.children (.node t at' cs) = cs from rfl] at hc
      exact List.mem_cons_of_mem _ (mem_allNodesF_of_mem hc x hx)
  have hmchild : m ∈ doc.children := by
    rw [hchild]; exact List.mem_append.mpr (Or.inr (List.mem_cons_self _ _))
  -- no skip marks below (or at) the marker node
  have hnoskipm : ∀ x ∈ allNodes m, isSkip x = false :=
    fun x hx => hnoskip x (hsub m hmchild x hx)
  have hskm : isSkip m = false := hnoskipm m (mem_allNodes_self m)
  have hskips : hasSkips [m] = false := by
    rw [(hasSkips_false_iff).2 [m]]
    intro x hx
    rw [allNodesF, allNodesF, List.append_nil] at hx
    exact hnoskipm x hx
  have heff : effNode m = m := by rw [effNode, if_neg (by simp [hskips])]
  -- the id attribute of m
  rcases Option.map_eq_some'.mp hid with ⟨ia, hia, hiaX⟩
  -- earlier siblings are quiet negatives
  have hpre' : ∀ c ∈ pre, tryOneFromNode c = .ok none := by
    intro c hc
    have hcchild : c ∈ doc.children := by
      rw [hchild]; exact List.mem_append.mpr (Or.inl hc)
    have hskc : isSkip c = false :=
      hnoskip c (hsub c hcchild c (mem_allNodes_self c))
    exact tryOne_not_marker hskc (hpre c hc)
  -- the class produced from m
  have hone := tryOne_marker_id hskm hm hia
  rw [heff] at hone
  refine ⟨⟨ia.firstValue, mkRoot [m], insertA ia.firstValue ⟨ia.firstValue, none⟩ (placeholderFold [m])⟩, ?_, ?_, ?_⟩
  · rw [tryFromHtml, hchild, tryFromHtmlNodes_append_none hpre', tryFromHtmlNodes, hone]
  · exact hiaX
  · intro k
    rw [lookupA_isSome_iff_mem_keys]
    have hproj : (⟨ia.firstValue, mkRoot [m], insertA ia.firstValue ⟨ia.firstValue, none⟩ (placeholderFold [m])⟩ : Class).placeholders = insertA ia.firstValue ⟨ia.firstValue, none⟩ (placeholderFold [m]) := rfl
    rw [hproj, keys_insertA, keys_placeholderFold]
    have hfetch : fetchForest hasId [m] = m :: fetchForest hasId m.children := by
      rw [fetchForest, fetchForest, List.append_nil, fetchNode_eq]
      have : hasId m = true := by rw [hasId, hia]; rfl
      rw [if_pos this]
      rfl
    rw [hfetch, List.map_cons, hdesc]
    have hfm : firstIdValue m = X := by rw [firstIdValue, hid]; rfl
    rw [hfm, hiaX]
    simp only [List.mem_cons, List.not_mem_nil, or_false]
    tauto

/-- C2 witness: the marker node as a top-level child, concretely. -/
theorem C2_first_marker_yields_class_witness :
    ((mkRoot [c2div]).children = [] ++ c2div :: [] ∧
     (∀ c ∈ ([] : List HNode), isMarker c = false) ∧
     (∀ n ∈ allNodes (mkRoot [c2div]), isSkip n = false) ∧
     isMarker c2div = true ∧ firstIdValue? c2div = some "x" ∧
     ("x" : String) ≠ "" ∧
     (fetchForest hasId c2div.children).map firstIdValue = ["a", "b"] ∧
     (("x" : String) ≠ "a" ∧ ("x" : String) ≠ "b" ∧ ("a" : String) ≠ "b")) ∧
    (∃ cl, tryFromHtml (mkRoot [c2div]) = .ok (some cl) ∧ cl.name = "x" ∧
      ∀ k, (lookupA k cl.placeholders).isSome = true ↔
        (k = "x" ∨ k = "a" ∨ k = "b")) := by
  refine ⟨⟨rfl, ?_, ?_, rfl, rfl, by decide, rfl, by decide⟩, ?_⟩
  · intro c hc; cases hc
  · decide
  · exact C2_first_marker_yields_class (mkRoot [c2div]) [] [] c2div "x" "a" "b"
      rfl (fun c hc => by cases hc) (by decide) rfl rfl (by decide) rfl (by decide)

section SkipClaimLemmas

theorem two_le_length_of_mem_ne {α : Type} {l : List α} {x y : α}
    (hx : x ∈ l) (hy : y ∈ l) (h : x ≠ y) : 2 ≤ l.length := by
  rcases List.append_of_mem hx with ⟨s1, t1, rfl⟩
  rcases List.mem_append.mp hy with hy' | hy'
  · have h1 : 0 < s1.length := List.length_pos_of_mem hy'
    rw [List.length_append, List.length_cons]
    omega
  · rcases List.mem_cons.mp hy' with rfl | hy''
    · exact absurd rfl h
    · have h1 : 0 < t1.length := List.length_pos_of_mem hy''
      rw [List.length_append, List.length_cons]
      omega

theorem mem_allNodes_of_child {doc c : HNode} (hc : c ∈ doc.children) :
    ∀ x ∈ allNodes c, x ∈ allNodes doc := by
  intro x hx
  cases doc with
  | node t a cs =>
    rw [allNodes_eq]
    rw [show HNode.children (.node t a cs) = cs from rfl] at hc
    exact List.mem_cons_of_mem _ (mem_allNodesF_of_mem hc x hx)

theorem firstIdValue?_of_hasId {n : HNode} (h : hasId n = true) :
    firstIdValue? n = some (firstIdValue n) := by
  rw [hasId] at h
  rcases ha : attrByName "id" n with _ | ia
  · rw [ha] at h; cases h
  · rw [firstIdValue?, ha, firstIdValue, firstIdValue?, ha]
    rfl

/-- No node of the surviving class-root subtree carries id first value `d`
when every carrier of `d` below the candidate is skip-marked. -/
theorem effNode_no_id (d : String) (n : HNode)
    (hall : ∀ x ∈ allNodes n, firstIdValue? x = some d → isSkip x = true)
    (hskn : isSkip n = false) :
    ∀ x ∈ allNodes (effNode n), firstIdValue? x ≠ some d := by
  intro x hx
  rw [effNode] at hx
  by_cases hs : hasSkips [n]
  · rw [if_pos hs] at hx
    exact (clean_no_skip_ids d).1 n hall hskn x hx
  · rw [if_neg hs] at hx
    intro hxd
    have hxskip : isSkip x = true := hall x hx hxd
    have : isSkip x = false := by
      refine (hasSkips_false_iff).2 [n] |>.mp (by simpa using hs) x ?_
      rw [allNodesF, allNodesF, List.append_nil]
      exact hx
    rw [hxskip] at this
    cases this

/-- A class constructed from a candidate below which every carrier of id
`d` is skip-marked has no placeholder keyed `d`, and is not named `d`. -/
theorem tryOne_no_skip_key {d : String} {n : HNode} {cl : Class}
    (hall : ∀ x ∈ allNodes n, firstIdValue? x = some d → isSkip x = true)
    (h : tryOneFromNode n = .ok (some cl)) :
    lookupA d cl.placeholders = none ∧ cl.name ≠ d := by
  have hname := tryOne_name h
  have hnod := effNode_no_id d n hall hname.1
  have hnamed : cl.name ≠ d := by
    intro he
    exact hnod (effNode n) (mem_allNodes_self _) (he ▸ hname.2)
  refine ⟨?_, hnamed⟩
  rw [← Option.not_isSome_iff_eq_none]
  intro hsome
  have hk := (lookupA_isSome_iff_mem_keys _).mp hsome
  rcases tryOne_placeholder_keys h d hk with hd | ⟨x, hx, hxd⟩
  · exact hnamed hd.symm
  · have hx' := ((mem_fetch hasId).2 [effNode n] x).mp hx
    have hxall : x ∈ allNodes (effNode n) := by
      have := hx'.1
      rw [allNodesF, allNodesF, List.append_nil] at this
      exact this
    exact hnod x hxall (by rw [firstIdValue?_of_hasId hx'.2, hxd])

end SkipClaimLemmas

/-- C3: when the markup holds exactly one node whose id first value is `d`
and that node is skip-marked, `d` never appears among the placeholder keys
of any class produced by `Class::try_from_html` or `Class::all_from_html`,
and the batch-discovery result map has no entry keyed `d`. -/
theorem C3_skip_identifier_never_appears (doc : HNode) (d : String)
    (hskip : (allNodes doc).any
      (fun n => isSkip n && (firstIdValue? n == some d)) = true)
    (huniq : (allNodes doc).countP
      (fun n => firstIdValue? n == some d) = 1) :
    (∀ cl, tryFromHtml doc = .ok (some cl) → lookupA d cl.placeholders = none) ∧
    (∀ m, allFromHtml doc = .ok m →
      lookupA d m = none ∧ ∀ e ∈ m, lookupA d e.2.placeholders = none) := by
  -- every carrier of id `d` in the document is skip-marked
  have hd : ∀ x ∈ allNodes doc, firstIdValue? x = some d → isSkip x = true := by
    rcases List.any_eq_true.mp hskip with ⟨s, hs, hsp⟩
    have hsp' := (Bool.and_eq_true _ _).mp hsp
    have hsskip : isSkip s = true := hsp'.1
    have hsid : (firstIdValue? s == some d) = true := hsp'.2
    intro x hx hxd
    by_contra hxs
    have hxskip : isSkip x = false := by simpa using hxs
    have hne : x ≠ s := by
      intro he
      rw [he, hsskip] at hxskip
      cases hxskip
    have hxf : x ∈ (allNodes doc).filter (fun n => firstIdValue? n == some d) :=
      List.mem_filter.mpr ⟨hx, by rw [hxd]; exact beq_self_eq_true _⟩
    have hsf : s ∈ (allNodes doc).filter (fun n => firstIdValue? n == some d) :=
      List.mem_filter.mpr ⟨hs, hsid⟩
    have h2 := two_le_length_of_mem_ne hxf hsf hne
    rw [← List.countP_eq_length_filter] at h2
    rw [huniq] at h2
    exact absurd h2 (by omega)
  have hallsub : ∀ n ∈ allNodesF doc.children,
      ∀ x ∈ allNodes n, firstIdValue? x = some d → isSkip x = true := by
    intro n hn x hx
    refine hd x ?_
    cases doc with
    | node t a cs =>
      rw [allNodes_eq]
      rw [show HNode.children (.node t a cs) = cs from rfl] at hn
      exact List.mem_cons_of_mem _ (allNodes_trans.2 cs n hn x hx)
  constructor
  · intro cl hcl
    rw [tryFromHtml] at hcl
    rcases tryFromHtmlNodes_ok_some hcl with ⟨n, hn, hn'⟩
    have hnall : n ∈ allNodesF doc.children :=
      mem_allNodesF_of_mem hn n (mem_allNodes_self n)
    exact (tryOne_no_skip_key (hallsub n hnall) hn').1
  · intro m hm
    rw [allFromHtml] at hm
    have hmem := allFromHtmlLoop_mem
      (fun e => e.1 ≠ d ∧ lookupA d e.2.placeholders = none) _ _ _ hm
      (fun e he => by cases he) ?_
    · refine ⟨?_, fun e he => (hmem e he).2⟩
      exact lookupA_eq_none_of_keys _ (fun e he => (hmem e he).1)
    · intro n hn cl hcl
      have hnall : n ∈ allNodesF doc.children :=
        (((mem_fetch isMarker).2 doc.children) n).mp hn |>.1
      have hkey := tryOne_no_skip_key (hallsub n hnall) hcl
      exact ⟨hkey.2, hkey.1⟩

/-- C3 witness: the repository's own skip-test markup, `d = "other"`. -/
theorem C3_skip_identifier_witness :
    ((allNodes sdoc).any
      (fun n => isSkip n && (firstIdValue? n == some "other")) = true ∧
     (allNodes sdoc).countP (fun n => firstIdValue? n == some "other") = 1) ∧
    ((∀ cl, tryFromHtml sdoc = .ok (some cl) →
        lookupA "other" cl.placeholders = none) ∧
     (∀ m, allFromHtml sdoc = .ok m →
        lookupA "other" m = none ∧
        ∀ e ∈ m, lookupA "other" e.2.placeholders = none)) :=
  ⟨⟨rfl, rfl⟩, C3_skip_identifier_never_appears sdoc "other" rfl rfl⟩

section LastWinsLemmas

/-- Whether a batch-discovery run completed without a panic. -/
def exceptIsOk {α : Type} : Except Unit α → Bool
  | .ok _ => true
  | .error _ => false

/-- The classes a node list yields whose name is `X`, in list order. -/
def classesOfL (X : String) : List HNode → List Class :=
  List.filterMap fun n =>
    match tryOneFromNode n with
    | .ok (some c) => if c.name = X then some c else none
    | _ => none

/-- The classes named `X` that batch discovery constructs from the
document's marker nodes, in document order. -/
def classesNamed (X : String) (doc : HNode) : List Class :=
  classesOfL X (fetchForest isMarker doc.children)

theorem getLast?_cons {α : Type} (c : α) :
    ∀ l : List α, (c :: l).getLast? = some (l.getLast?.getD c) := by
  intro l
  induction l generalizing c with
  | nil => rfl
  | cons d t ih =>
    rw [List.getLast?_cons_cons, ih d]
    rfl

/-- What batch discovery's loop binds under key `X`: the last class named
`X` that the node list produced, else whatever the accumulator held. -/
theorem allFromHtmlLoop_lookup (X : String) :
    ∀ (l : List HNode) (acc m : List (String × Class)),
      allFromHtmlLoop acc l = .ok m →
      lookupA X m = ((classesOfL X l).getLast?).elim (lookupA X acc) some := by
  intro l
  induction l with
  | nil =>
    intro acc m h
    rw [allFromHtmlLoop] at h
    injection h with h
    rw [classesOfL, List.filterMap_nil]
    exact h ▸ rfl
  | cons n t ih =>
    intro acc m h
    rw [allFromHtmlLoop] at h
    rcases hn : tryOneFromNode n with e | oc
    · rw [hn] at h; cases h
    · rcases oc with _ | cl
      · rw [hn] at h; cases h
      · rw [hn] at h
        have hrec := ih _ m h
        by_cases hname : cl.name = X
        · have hfm : classesOfL X (n :: t) = cl :: classesOfL X t := by
            simp only [classesOfL, List.filterMap_cons, hn, if_pos hname]
          rw [hfm, getLast?_cons]
          rcases hlast : (classesOfL X t).getLast? with _ | c'
          · rw [hlast] at hrec
            have hins : lookupA X (insertA cl.name cl acc) = some cl := by
              rw [hname]
              exact lookupA_insertA_self acc
            exact hrec.trans hins
          · rw [hlast] at hrec
            exact hrec
        · have hfm : classesOfL X (n :: t) = classesOfL X t := by
            simp only [classesOfL, List.filterMap_cons, hn, if_neg hname]
          rw [hfm]
          rw [show lookupA X (insertA cl.name cl acc) = lookupA X acc from
            lookupA_insertA_ne (fun he => hname he.symm) acc] at hrec
          exact hrec

end LastWinsLemmas

/-- C9: when a document's marker nodes yield two or more classes named
`X`, a completed batch discovery (`Class::all_from_html`) returns a map
with duplicate-free keys — hence exactly one class under `X` — and the
class bound under `X` is the one built from the later (last, in document
order) occurrence. -/
theorem C9_last_same_named_class_wins (doc : HNode) (X : String)
    (hok : exceptIsOk (allFromHtml doc) = true)
    (h2 : 2 ≤ (classesNamed X doc).length) :
    ∃ m, allFromHtml doc = .ok m ∧ (keysA m).Nodup ∧
      ∃ c, (classesNamed X doc).getLast? = some c ∧ lookupA X m = some c := by
  rcases hall : allFromHtml doc with e | m
  · rw [hall] at hok; cases hok
  · refine ⟨m, rfl, ?_, ?_⟩
    · rw [allFromHtml] at hall
      exact allFromHtmlLoop_nodup _ _ _ hall List.nodup_nil
    · have hlk := allFromHtmlLoop_lookup X _ _ m (by rw [allFromHtml] at hall; exact hall)
      have hne : classesNamed X doc ≠ [] := by
        intro he
        rw [he] at h2
        simp at h2
      rcases hlast : (classesNamed X doc).getLast? with _ | c
      · have hs := List.getLast?_isSome.mpr hne
        rw [hlast] at hs
        cases hs
      · refine ⟨c, rfl, ?_⟩
        rw [classesNamed] at hlast
        rw [hlast] at hlk
        exact hlk

/-- Two marker-tagged nodes sharing the name `x`, the later with a
distinguishing descendant (C9's witness document). -/
def c9doc : HNode := mkRoot
  [ .node (some "div") [⟨"class", ["uitacoComponent"]⟩, ⟨"id", ["x"]⟩] [],
    .node (some "p") [⟨"class", ["uitacoComponent"]⟩, ⟨"id", ["x"]⟩]
      [.node (some "span") [⟨"id", ["inner"]⟩] []] ]

/-- C9 witness: both marker roots are named `x`; discovery completes and
the map binds `x` to the later class. -/
theorem C9_last_same_named_class_wins_witness :
    (exceptIsOk (allFromHtml c9doc) = true ∧
      2 ≤ (classesNamed "x" c9doc).length) ∧
    (∃ m, allFromHtml c9doc = .ok m ∧ (keysA m).Nodup ∧
      ∃ c, (classesNamed "x" c9doc).getLast? = some c ∧ lookupA "x" m = some c) :=
  ⟨⟨rfl, by decide⟩, C9_last_same_named_class_wins c9doc "x" rfl (by decide)⟩
